import Mathlib

/-!
Verification of the HTML → Ricos converter (converter module of the
html-to-ricos repository).

The converter is embedded shallowly:

* The sanitized, parsed DOM handed over by the external DOM supplier is the
  inductive type `HNode` (text nodes and element nodes with a tag, an
  attribute list and an ordered child list).
* Ricos output nodes are the inductive type `RNode`; the document envelope
  is `RicosDoc`.
* `Math.random`-based id generation is modelled by an explicit id stream
  `g : Nat → String` together with a counter that is threaded through every
  function exactly in the order in which the JavaScript calls `generateId()`.
* The mutually recursive converter functions are defined with an explicit
  fuel parameter (decremented on every call) so that all definitions are
  structural and evaluate by kernel reduction; the entry point supplies a
  fuel value that is far larger than the recursion depth of the original
  functions on the given tree.  On fuel exhaustion the functions return
  inert junk values, which never happens for the fuel supplied by the entry
  point on the inputs considered in the theorems below.
* JavaScript string operations (`trim`, `includes`, `parseInt`,
  `toLowerCase`) are modelled over `List Char`; `parseInt` returning `NaN`
  is modelled as `Option Int` with `none` for `NaN`.  (The hexadecimal
  `0x`-prefix auto-detection of `parseInt` is not modelled; no input below
  exercises it.)
-/

set_option linter.unusedVariables false

/-! ## JavaScript string primitives -/

/-- The ASCII whitespace characters recognised by JavaScript's `\s` and
`String.prototype.trim` (Unicode space classes are not modelled). -/
def jsWS (c : Char) : Bool :=
  c = ' ' || c = '\t' || c = '\n' || c = '\r' || c = '\x0b' || c = '\x0c'

/-- JavaScript `String.prototype.trim`. -/
def jsTrim (s : String) : String :=
  String.mk (((s.data.dropWhile jsWS).reverse.dropWhile jsWS).reverse)

/-- ASCII lower-casing of a character, as `toLowerCase` does on tag names. -/
def lowerChar (c : Char) : Char :=
  if 'A' ≤ c ∧ c ≤ 'Z' then Char.ofNat (c.toNat + 32) else c

/-- JavaScript `String.prototype.toLowerCase` (ASCII fragment). -/
def lowerStr (s : String) : String := String.mk (s.data.map lowerChar)

/-- Substring containment, JavaScript `String.prototype.includes`. -/
def containsSub (hay pat : String) : Bool :=
  go hay.data
where
  go : List Char → Bool
  | [] => pat.data.isPrefixOf ([] : List Char)
  | c :: cs => pat.data.isPrefixOf (c :: cs) || go cs

/-- Numeric value of a list of decimal digit characters. -/
def digitsToNat (ds : List Char) : Nat :=
  ds.foldl (fun a c => a * 10 + (c.toNat - 48)) 0

/-- Numeric value of a string of decimal digits (used for regex captures
that are known to consist of digits). -/
def digitsToInt (s : String) : Int := (digitsToNat s.data : Int)

/-- Leading run of decimal digits, `none` when there is no digit. -/
def parseDigits (cs : List Char) : Option Nat :=
  let ds := cs.takeWhile Char.isDigit
  if ds.length = 0 then none else some (digitsToNat ds)

/-- JavaScript `parseInt` on decimal input: skip leading whitespace, accept
an optional sign, read the leading digits; `none` models `NaN`. -/
def parseIntJS (s : String) : Option Int :=
  let cs := s.data.dropWhile jsWS
  match cs with
  | '-' :: rest => (parseDigits rest).map (fun n => -(n : Int))
  | '+' :: rest => (parseDigits rest).map (fun n => (n : Int))
  | rest => (parseDigits rest).map (fun n => (n : Int))

/-! ## The DOM tree handed over by the external DOM supplier -/

inductive HNode where
  | text (content : String)
  | elem (tag : String) (attrs : List (String × String)) (children : List HNode)

-- Number of DOM nodes; only used to compute a generous fuel value.
mutual
def hsize : HNode → Nat
  | .text _ => 1
  | .elem _ _ cs => 1 + hsizeList cs

def hsizeList : List HNode → Nat
  | [] => 0
  | c :: cs => hsize c + hsizeList cs
end

def HNode.tagOf : HNode → String
  | .text _ => ""
  | .elem t _ _ => t

/-- Lower-cased tag name, `element.tagName.toLowerCase()`. -/
def tagLower (e : HNode) : String := lowerStr e.tagOf

def HNode.childrenOf : HNode → List HNode
  | .text _ => []
  | .elem _ _ cs => cs

def HNode.isElem : HNode → Bool
  | .elem _ _ _ => true
  | .text _ => false

/-- `element.getAttribute(name)`: first binding of the attribute, `none`
for a missing attribute (JavaScript `null`). -/
def getAttr (e : HNode) (name : String) : Option String :=
  match e with
  | .text _ => none
  | .elem _ attrs _ => (attrs.find? (fun p => p.1 = name)).map (fun p => p.2)

/-- Truthiness of `getAttribute(...)`: `null` and `""` are falsy. -/
def attrTruthy (a : Option String) : Bool :=
  match a with
  | none => false
  | some s => !(s = "")

-- textContent: concatenated text of the whole subtree.
mutual
def textContent : HNode → String
  | .text s => s
  | .elem _ _ cs => textContentList cs

def textContentList : List HNode → String
  | [] => ""
  | c :: cs => textContent c ++ textContentList cs
end

-- querySelectorAll for a tag predicate: all matching element descendants
-- (excluding the root itself) in document order.
mutual
def queryAll (p : String → Bool) : HNode → List HNode
  | .text _ => []
  | .elem _ _ cs => queryAllList p cs

def queryAllList (p : String → Bool) : List HNode → List HNode
  | [] => []
  | c :: cs =>
      (if c.isElem && p (tagLower c) then [c] else []) ++ queryAll p c
        ++ queryAllList p cs
end

-- Like queryAll, but each hit is paired with the lower-cased tag of its
-- immediate parent element (the converter inspects row.parentElement).
mutual
def queryAllPar (p : String → Bool) : HNode → List (HNode × String)
  | .text _ => []
  | .elem t _ cs => queryAllParList p (lowerStr t) cs

def queryAllParList (p : String → Bool) (parentTag : String) :
    List HNode → List (HNode × String)
  | [] => []
  | c :: cs =>
      (if c.isElem && p (tagLower c) then [(c, parentTag)] else [])
        ++ queryAllPar p c ++ queryAllParList p parentTag cs
end

/-! ## Ricos output model -/

inductive Decoration where
  | bold (fontWeightValue : Int)
  | italic
  | underline
  | color (color : String)
  | link (url : String) (target : String) (relNoreferrer : Bool)
deriving DecidableEq

structure TextData where
  text : String
  decorations : Option (List Decoration)
deriving DecidableEq

structure PData where
  textAlignment : String
  indentation : Option Nat
deriving DecidableEq

structure HData where
  level : Int
  textAlignment : String
deriving DecidableEq

structure TableData where
  colsWidthRatio : List Nat
  rowsHeight : List Nat
  colsMinWidth : List Nat
  borderColor : String
  borderWidth : Nat
  borderStyle : String
deriving DecidableEq

/-- Image payload; the constant `containerData` emitted by the converter
(`width.size = CONTENT`, `alignment = CENTER`, `textWrap = true`) is the
same for every image and is carried by the `containerAlignment` field.
`width`/`height` are `Option Int`, with `none` modelling `NaN`. -/
structure ImageData where
  url : String
  width : Option Int
  height : Option Int
  containerAlignment : String
deriving DecidableEq

inductive RNode where
  | text (td : TextData)
  | paragraph (id : String) (children : List RNode) (pdata : Option PData)
  | heading (id : String) (children : List RNode) (hdata : HData)
  | bulletedList (id : String) (children : List RNode)
  | orderedList (id : String) (children : List RNode)
  | listItem (id : String) (children : List RNode)
  | blockquote (id : String) (children : List RNode)
  | codeBlock (id : String) (children : List RNode)
  | table (id : String) (children : List RNode) (tdata : TableData)
  | tableRow (id : String) (children : List RNode)
  | tableCell (id : String) (children : List RNode) (cellData : Option (Option Int))
  | image (id : String) (idata : ImageData)
  | divider (id : String)

structure RicosDoc where
  nodes : List RNode

/-- The `type` discriminator string of a node. -/
def RNode.typeStr : RNode → String
  | .text _ => "TEXT"
  | .paragraph _ _ _ => "PARAGRAPH"
  | .heading _ _ _ => "HEADING"
  | .bulletedList _ _ => "BULLETED_LIST"
  | .orderedList _ _ => "ORDERED_LIST"
  | .listItem _ _ => "LIST_ITEM"
  | .blockquote _ _ => "BLOCKQUOTE"
  | .codeBlock _ _ => "CODE_BLOCK"
  | .table _ _ _ => "TABLE"
  | .tableRow _ _ => "TABLE_ROW"
  | .tableCell _ _ _ => "TABLE_CELL"
  | .image _ _ => "IMAGE"
  | .divider _ => "DIVIDER"

/-- The shape test used throughout the converter and its normalization pass:
a spacing node is a `PARAGRAPH` whose single child is a `TEXT` whose
`textData.text` is exactly one space (decorations are not inspected). -/
def isSpacingNode : RNode → Bool
  | .paragraph _ [.text td] _ => td.text = " "
  | _ => false

/-! ## Style/Class Extractor -/

structure StyleData where
  margin : Bool
  padding : Bool
  textAlignment : Option String
  color : Option String
  fontSize : Option Int
  fontWeight : Option Int
deriving DecidableEq

structure ClassData where
  highlight : Bool
  textAlignment : Option String
  isSection : Bool
deriving DecidableEq

def hexDigit (c : Char) : Bool :=
  c.isDigit || ('a' ≤ c && c ≤ 'f') || ('A' ≤ c && c ≤ 'F')

def asciiLetter (c : Char) : Bool :=
  ('a' ≤ c && c ≤ 'z') || ('A' ≤ c && c ≤ 'Z')

/-- The value alternation of the converter's color regular expression,
tried at a fixed position: a 3–6 digit hex color, `rgb(...)`/`rgba(...)`,
or a run of letters (named color). -/
def tryColorValue (cs : List Char) : Option String :=
  match cs with
  | '#' :: rest =>
      let hs := (rest.takeWhile hexDigit).take 6
      if 3 ≤ hs.length then some (String.mk ('#' :: hs)) else none
  | _ =>
    let rgbTry : Option String :=
      match cs with
      | 'r' :: 'g' :: 'b' :: rest =>
        let pr : String × List Char :=
          match rest with
          | 'a' :: r2 => ("rgba", r2)
          | _ => ("rgb", rest)
        (match pr.2 with
         | '(' :: r3 =>
           let inner := r3.takeWhile (fun c => !(c = ')'))
           if 1 ≤ inner.length && 1 ≤ (r3.drop inner.length).length then
             some (pr.1 ++ String.mk ('(' :: inner) ++ ")")
           else none
         | _ => none)
      | _ => none
    match rgbTry with
    | some v => some v
    | none =>
      let letters := cs.takeWhile asciiLetter
      if 1 ≤ letters.length then some (String.mk letters) else none

/-- Leading digit run as a capture, as in `(\d+)`. -/
def tryIntValue (cs : List Char) : Option String :=
  let ds := cs.takeWhile Char.isDigit
  if 1 ≤ ds.length then some (String.mk ds) else none

/-- The value alternation `(\d+|bold|normal)` of the font-weight regex. -/
def tryWeightValue (cs : List Char) : Option String :=
  let ds := cs.takeWhile Char.isDigit
  if 1 ≤ ds.length then some (String.mk ds)
  else if ("bold".data).isPrefixOf cs then some "bold"
  else if ("normal".data).isPrefixOf cs then some "normal"
  else none

/-- Left-to-right scan for the first position where `kw`, then `\s*`, then
`:`, then `\s*`, then `valueFn` matches — the shape shared by the three
style regular expressions of the converter. -/
def scanKeyValue (kw : List Char) (valueFn : List Char → Option String) :
    List Char → Option String
  | [] => none
  | c :: cs =>
    let here : Option String :=
      if kw.isPrefixOf (c :: cs) then
        match ((c :: cs).drop kw.length).dropWhile jsWS with
        | ':' :: r2 => valueFn (r2.dropWhile jsWS)
        | _ => none
      else none
    match here with
    | some v => some v
    | none => scanKeyValue kw valueFn cs

/-- `processNodeStyle`: parse the `style` attribute; `none` when the
attribute is missing or empty (falsy in JavaScript). -/
def processNodeStyle (e : HNode) : Option StyleData :=
  match getAttr e "style" with
  | none => none
  | some style =>
    if style = "" then none
    else
      let cs := style.data
      some
        { margin := containsSub style "margin"
          padding := containsSub style "padding"
          textAlignment :=
            if containsSub style "text-align" then
              some (if containsSub style "text-align: center" then "CENTER"
                    else if containsSub style "text-align: right" then "RIGHT"
                    else if containsSub style "text-align: justify" then "JUSTIFY"
                    else "LEFT")
            else none
          color := scanKeyValue ("color".data) tryColorValue cs
          fontSize := (scanKeyValue ("font-size".data) tryIntValue cs).map digitsToInt
          fontWeight := (scanKeyValue ("font-weight".data) tryWeightValue cs).map
            (fun w => if w = "bold" then 700
                      else if w = "normal" then 400
                      else digitsToInt w) }

/-- `processNodeClass`: parse the `class` attribute; `none` when the
attribute is missing or empty.  Later alignment checks overwrite earlier
ones, as in the source. -/
def processNodeClass (e : HNode) : Option ClassData :=
  match getAttr e "class" with
  | none => none
  | some className =>
    if className = "" then none
    else
      let ta0 : Option String :=
        if containsSub className "center" || containsSub className "text-center" then
          some "CENTER"
        else none
      let ta1 : Option String :=
        if containsSub className "right" || containsSub className "text-right" then
          some "RIGHT"
        else ta0
      let ta2 : Option String :=
        if containsSub className "justify" || containsSub className "text-justify" then
          some "JUSTIFY"
        else ta1
      some
        { highlight := containsSub className "highlight" || containsSub className "important"
          textAlignment := ta2
          isSection := containsSub className "section" || containsSub className "container" }

/-! ## The converter

Each function takes the id stream `g`, a fuel value (decremented on every
call so that all recursion is structural), its JavaScript arguments, and
the current id counter, and returns its result paired with the next
counter value.  Ids are drawn as `g k` exactly in the order in which the
JavaScript calls `generateId()`. -/

abbrev IdGen := Nat → String

/-- `createSpacingParagraph`. -/
def createSpacingParagraph (g : IdGen) (k : Nat) : RNode × Nat :=
  (.paragraph (g k) [.text { text := " ", decorations := none }] none, k + 1)

/-- Truthiness of `parentStyle.fontWeight` (a JavaScript number: `0` is
falsy; the regex capture guarantees the value is a number, never `NaN`). -/
def fontWeightTruthy (sd : StyleData) : Bool :=
  match sd.fontWeight with
  | some w => !(w = 0)
  | none => false

/-- Decorations attached to a plain text child from the parent's style:
present only when the parent style carries a (truthy) color or
font-weight; color first, then bold when the weight is at least 600. -/
def ptiTextDecorations (ps : Option StyleData) : Option (List Decoration) :=
  match ps with
  | none => none
  | some sd =>
    if sd.color.isSome || fontWeightTruthy sd then
      some ((match sd.color with
             | some c => [Decoration.color c]
             | none => []) ++
            (match sd.fontWeight with
             | some w => if !(w = 0) && 600 ≤ w then [Decoration.bold w] else []
             | none => []))
    else none

/-- `hasAttribute(a) ? parseInt(getAttribute(a) || '0') : dflt` — the
image dimension computation; `none` models `NaN`. -/
def imgDim (a : Option String) (dflt : Int) : Option Int :=
  match a with
  | none => some dflt
  | some v => parseIntJS (if v = "" then "0" else v)

/-- The image node literal shared by the inline processor and the tree
walker (the code is duplicated verbatim in the source). -/
def makeImageNode (g : IdGen) (e : HNode) (k : Nat) : RNode × Nat :=
  (.image (g k)
    { url := (getAttr e "src").getD ""
      width := imgDim (getAttr e "width") 500
      height := imgDim (getAttr e "height") 300
      containerAlignment := "CENTER" }, k + 1)

/-- `Math.min(parseInt(tagName.charAt(1)), 6)`; only reached for the tags
`h1`–`h6`, whose second character is a digit. -/
def headingLevelOf (tag : String) : Int :=
  min ((parseIntJS (String.mk [(tag.data.drop 1).headD ' '])).getD 0) 6

/-- `headingStyle?.textAlignment || 'AUTO'`. -/
def alignOf (st : Option StyleData) : String :=
  (st.bind (fun sd => sd.textAlignment)).getD "AUTO"

def headingTags : List String := ["h1", "h2", "h3", "h4", "h5", "h6"]

/-- The block-tag set of the inline processor's default branch. -/
def ptiBlockTags : List String :=
  ["p", "h1", "h2", "h3", "h4", "h5", "h6", "div", "blockquote", "pre", "ul", "ol", "li"]

/-- The block-tag set of the div branch (`table` instead of `li`). -/
def divBlockTags : List String :=
  ["p", "h1", "h2", "h3", "h4", "h5", "h6", "div", "blockquote", "pre", "ul", "ol", "table"]

/-- The second loop of `convertNodeToRicos`: after the main loop, two
spacing paragraphs are appended for every child that is a `div` whose
(truthy) class attribute mentions `section` or `container`. -/
def sectionTail (g : IdGen) : List HNode → Nat → List RNode × Nat
  | [], k => ([], k)
  | c :: rest, k =>
    if c.isElem && (tagLower c = "div") && attrTruthy (getAttr c "class")
        && (containsSub ((getAttr c "class").getD "") "section"
            || containsSub ((getAttr c "class").getD "") "container") then
      let s1 := createSpacingParagraph g k
      let s2 := createSpacingParagraph g s1.2
      let tr := sectionTail g rest s2.2
      (s1.1 :: s2.1 :: tr.1, tr.2)
    else sectionTail g rest k

mutual

/-- `processTextAndInlineElements`: compute the parent's style once, then
walk the child nodes. -/
def processTextAndInlineElements (g : IdGen) : Nat → HNode → Nat → List RNode × Nat
  | 0, _, k => ([], k)
  | fuel + 1, e, k => ptiChildren g fuel (processNodeStyle e) e.childrenOf k
termination_by structural fuel e k => fuel

/-- The child-node loop of `processTextAndInlineElements`. -/
def ptiChildren (g : IdGen) :
    Nat → Option StyleData → List HNode → Nat → List RNode × Nat
  | 0, _, _, k => ([], k)
  | _ + 1, _, [], k => ([], k)
  | fuel + 1, ps, c :: rest, k =>
    match c with
    | .text s =>
      if !(jsTrim s = "") then
        let tn : RNode := .text { text := s, decorations := ptiTextDecorations ps }
        let tr := ptiChildren g fuel ps rest k
        (tn :: tr.1, tr.2)
      else ptiChildren g fuel ps rest k
    | .elem _ _ _ =>
      let tag := tagLower c
      if tag = "strong" || tag = "b" then
        let tn : RNode := .text { text := textContent c, decorations := some [.bold 700] }
        let tr := ptiChildren g fuel ps rest k
        (tn :: tr.1, tr.2)
      else if tag = "em" || tag = "i" then
        let tn : RNode := .text { text := textContent c, decorations := some [.italic] }
        let tr := ptiChildren g fuel ps rest k
        (tn :: tr.1, tr.2)
      else if tag = "u" then
        let tn : RNode := .text { text := textContent c, decorations := some [.underline] }
        let tr := ptiChildren g fuel ps rest k
        (tn :: tr.1, tr.2)
      else if tag = "a" then
        let tn : RNode := .text
          { text := textContent c
            decorations := some
              [.link ((getAttr c "href").getD "")
                  (if getAttr c "target" = some "_blank" then "BLANK" else "SELF") true,
               .underline] }
        let tr := ptiChildren g fuel ps rest k
        (tn :: tr.1, tr.2)
      else if tag = "span" then
        let sp := processTextAndInlineElements g fuel c k
        let tr := ptiChildren g fuel ps rest sp.2
        (sp.1 ++ tr.1, tr.2)
      else if tag = "br" then
        let tn : RNode := .text { text := "\n", decorations := none }
        let tr := ptiChildren g fuel ps rest k
        (tn :: tr.1, tr.2)
      else if tag = "img" then
        let im := makeImageNode g c k
        let tr := ptiChildren g fuel ps rest im.2
        (im.1 :: tr.1, tr.2)
      else if ptiBlockTags.contains tag then
        let hb := handleBlockElement g fuel c k
        let tr := ptiChildren g fuel ps rest hb.2
        (hb.1 ++ tr.1, tr.2)
      else
        let sp := processTextAndInlineElements g fuel c k
        let tr := ptiChildren g fuel ps rest sp.2
        (sp.1 ++ tr.1, tr.2)
termination_by structural fuel ps cs k => fuel

/-- `handleBlockElement`. -/
def handleBlockElement (g : IdGen) : Nat → HNode → Nat → List RNode × Nat
  | 0, _, k => ([], k)
  | fuel + 1, e, k =>
    if tagLower e = "p" then
      let pStyle := processNodeStyle e
      let pid := g k
      let inl := processTextAndInlineElements g fuel e (k + 1)
      let pdata : Option PData :=
        match pStyle with
        | none => none
        | some st =>
            some { textAlignment := st.textAlignment.getD "AUTO"
                   indentation := if st.margin || st.padding then some 1 else none }
      ([.paragraph pid inl.1 pdata], inl.2)
    else if headingTags.contains (tagLower e) then
      let pre :=
        if tagLower e = "h2" ∨ tagLower e = "h3" then
          let s := createSpacingParagraph g k
          ([s.1], s.2)
        else ([], k)
      let hid := g pre.2
      let inl := processTextAndInlineElements g fuel e (pre.2 + 1)
      let hnode : RNode := .heading hid inl.1
        { level := headingLevelOf (tagLower e), textAlignment := alignOf (processNodeStyle e) }
      let s1 := createSpacingParagraph g inl.2
      if tagLower e = "h2" then
        let s2 := createSpacingParagraph g s1.2
        (pre.1 ++ [hnode, s1.1, s2.1], s2.2)
      else
        (pre.1 ++ [hnode, s1.1], s1.2)
    else if tagLower e = "ul" then
      let lid := g k
      let inner := convertNodeToRicos g fuel e (k + 1)
      let s := createSpacingParagraph g inner.2
      ([.bulletedList lid inner.1, s.1], s.2)
    else if tagLower e = "ol" then
      let lid := g k
      let inner := convertNodeToRicos g fuel e (k + 1)
      let s := createSpacingParagraph g inner.2
      ([.orderedList lid inner.1, s.1], s.2)
    else if tagLower e = "li" then
      let lid := g k
      let inl := processTextAndInlineElements g fuel e (k + 1)
      ([.listItem lid inl.1], inl.2)
    else if tagLower e = "blockquote" then
      let bid := g k
      let inl := processTextAndInlineElements g fuel e (k + 1)
      let s := createSpacingParagraph g inl.2
      ([.blockquote bid inl.1, s.1], s.2)
    else if tagLower e = "pre" ∨ tagLower e = "code" then
      let cid := g k
      let s := createSpacingParagraph g (k + 1)
      ([.codeBlock cid [.text { text := textContent e, decorations := none }], s.1], s.2)
    else if tagLower e = "div" then
      let divClass := processNodeClass e
      let hasBlockChildren := e.childrenOf.any (fun c =>
        c.isElem && divBlockTags.contains (tagLower c))
      let isSec : Bool :=
        match divClass with
        | some cd => cd.isSection
        | none => false
      let pre :=
        if isSec then
          let s1 := createSpacingParagraph g k
          let s2 := createSpacingParagraph g s1.2
          ([s1.1, s2.1], s2.2)
        else ([], k)
      let mid :=
        if hasBlockChildren then divChildrenLoop g fuel e.childrenOf pre.2
        else
          let pid := g pre.2
          let inl := processTextAndInlineElements g fuel e (pre.2 + 1)
          let pdata : Option PData :=
            match divClass with
            | some cd =>
              match cd.textAlignment with
              | some ta => some { textAlignment := ta, indentation := none }
              | none => none
            | none => none
          ([.paragraph pid inl.1 pdata], inl.2)
      let post :=
        if isSec then
          let s1 := createSpacingParagraph g mid.2
          let s2 := createSpacingParagraph g s1.2
          ([s1.1, s2.1], s2.2)
        else ([], mid.2)
      (pre.1 ++ mid.1 ++ post.1, post.2)
    else
      let pid := g k
      let inl := processTextAndInlineElements g fuel e (k + 1)
      ([.paragraph pid inl.1 none], inl.2)
termination_by structural fuel e k => fuel

/-- The child loop of the div branch of `handleBlockElement`: element
children go through `convertNodeToRicos`, non-blank text children become
their own paragraph with the trimmed text. -/
def divChildrenLoop (g : IdGen) : Nat → List HNode → Nat → List RNode × Nat
  | 0, _, k => ([], k)
  | _ + 1, [], k => ([], k)
  | fuel + 1, c :: rest, k =>
    match c with
    | .elem _ _ _ =>
      let cv := convertNodeToRicos g fuel c k
      let tr := divChildrenLoop g fuel rest cv.2
      (cv.1 ++ tr.1, tr.2)
    | .text s =>
      let t := jsTrim s
      if !(t = "") then
        let pid := g k
        let tr := divChildrenLoop g fuel rest (k + 1)
        (.paragraph pid [.text { text := t, decorations := none }] none :: tr.1, tr.2)
      else divChildrenLoop g fuel rest k
termination_by structural fuel cs k => fuel

/-- `handleTable`: collect all `tr` descendants (with their parent tag);
with no rows, return a spacing paragraph, otherwise build the table node
with its synthesized layout metadata. -/
def handleTable (g : IdGen) : Nat → HNode → Nat → RNode × Nat
  | 0, _, k => (.divider "", k)
  | fuel + 1, e, k =>
    let rows := queryAllPar (fun t => t = "tr") e
    if rows.isEmpty then
      createSpacingParagraph g k
    else
      let lp := tableLoop g fuel rows ([], [], 0) k
      let tid := g lp.2
      (.table tid lp.1.1
        { colsWidthRatio := List.replicate lp.1.2.2 150
          rowsHeight := lp.1.2.1
          colsMinWidth := List.replicate lp.1.2.2 140
          borderColor := "#CFCFCF"
          borderWidth := 1
          borderStyle := "solid" }, lp.2 + 1)
termination_by structural fuel e k => fuel

/-- The row loop of `handleTable`; the accumulator carries
`(tableRows, rowsHeight, maxCols)` exactly as the three mutable variables
of the source. Rows without `th`/`td` descendants are skipped. -/
def tableLoop (g : IdGen) :
    Nat → List (HNode × String) → (List RNode × List Nat × Nat) → Nat →
      (List RNode × List Nat × Nat) × Nat
  | 0, _, acc, k => (acc, k)
  | _ + 1, [], acc, k => (acc, k)
  | fuel + 1, rp :: rest, acc, k =>
    let isHeaderRow := rp.2 = "thead"
    let cells := queryAll (fun t => t = "th" || t = "td") rp.1
    if cells.isEmpty then
      tableLoop g fuel rest acc k
    else
      let maxCols := max acc.2.2 cells.length
      let heights := acc.2.1 ++ [50]
      let cl := tableCellsLoop g fuel cells isHeaderRow k
      let rid := g cl.2
      tableLoop g fuel rest (acc.1 ++ [.tableRow rid cl.1], heights, maxCols) (cl.2 + 1)
termination_by structural fuel rows acc k => fuel

/-- The cell loop of a table row: each cell becomes a `TABLE_CELL` holding
one center-aligned paragraph wrapping the cell's inline output, or a
fallback text from the cell's `textContent` (bold for header cells) when
that output is empty. `colspan` is recorded only when the attribute is
truthy; its `parseInt` may be `NaN` (`none`). -/
def tableCellsLoop (g : IdGen) : Nat → List HNode → Bool → Nat → List RNode × Nat
  | 0, _, _, k => ([], k)
  | _ + 1, [], _, k => ([], k)
  | fuel + 1, cell :: rest, isHeaderRow, k =>
    let isHeader := tagLower cell = "th" || isHeaderRow
    let cid := g k
    let content := processTextAndInlineElements g fuel cell (k + 1)
    let pid := g content.2
    let paraChildren : List RNode :=
      if content.1.isEmpty then
        [.text { text := textContent cell
                 decorations := if isHeader then some [.bold 700] else none }]
      else content.1
    let para : RNode :=
      .paragraph pid paraChildren (some { textAlignment := "CENTER", indentation := none })
    let cdata : Option (Option Int) :=
      if attrTruthy (getAttr cell "colspan") then
        some (parseIntJS ((getAttr cell "colspan").getD ""))
      else none
    let cn : RNode := .tableCell cid [para] cdata
    let tr := tableCellsLoop g fuel rest isHeaderRow (content.2 + 1)
    (cn :: tr.1, tr.2)
termination_by structural fuel cs hdr k => fuel

/-- `convertNodeToRicos`: the main loop over the child nodes followed by
the section-spacing loop (the latter appends at the end of the whole
sequence). -/
def convertNodeToRicos (g : IdGen) : Nat → HNode → Nat → List RNode × Nat
  | 0, _, k => ([], k)
  | fuel + 1, node, k =>
    let main := convertLoop g fuel node.childrenOf false [] k
    let tail := sectionTail g node.childrenOf main.2
    (main.1 ++ tail.1, tail.2)
termination_by structural fuel e k => fuel

/-- The main child loop of `convertNodeToRicos`.  `prevHeading` models
`previousWasHeading` (`previousWasText` is assigned but never read in the
source and is omitted); `acc` is the `nodes` array built so far, which the
heading branch consults via `nodes.length > 0`. -/
def convertLoop (g : IdGen) :
    Nat → List HNode → Bool → List RNode → Nat → List RNode × Nat
  | 0, _, _, acc, k => (acc, k)
  | _ + 1, [], _, acc, k => (acc, k)
  | fuel + 1, c :: rest, prevHeading, acc, k =>
    match c with
    | .text s =>
      if !(jsTrim s = "") then
        convertLoop g fuel rest false
          (acc ++ [.text { text := s, decorations := none }]) k
      else convertLoop g fuel rest prevHeading acc k
    | .elem _ _ _ =>
      if tagLower c = "p" then
        let hb := handleBlockElement g fuel c k
        convertLoop g fuel rest false (acc ++ hb.1) hb.2
      else if headingTags.contains (tagLower c) then
        let pre :=
          if !acc.isEmpty && !prevHeading then
            let s := createSpacingParagraph g k
            ([s.1], s.2)
          else ([], k)
        let hid := g pre.2
        let inl := processTextAndInlineElements g fuel c (pre.2 + 1)
        let hnode : RNode := .heading hid inl.1
          { level := headingLevelOf (tagLower c), textAlignment := alignOf (processNodeStyle c) }
        let s1 := createSpacingParagraph g inl.2
        convertLoop g fuel rest true (acc ++ pre.1 ++ [hnode, s1.1]) s1.2
      else if tagLower c = "div" then
        let dv := convertNodeToRicos g fuel c k
        convertLoop g fuel rest prevHeading (acc ++ dv.1) dv.2
      else if tagLower c = "table" then
        let tb := handleTable g fuel c k
        let s := createSpacingParagraph g tb.2
        convertLoop g fuel rest prevHeading (acc ++ [tb.1, s.1]) s.2
      else if tagLower c = "thead" ∨ tagLower c = "tbody" ∨ tagLower c = "tfoot" then
        let cv := convertNodeToRicos g fuel c k
        convertLoop g fuel rest prevHeading (acc ++ cv.1) cv.2
      else if tagLower c = "tr" then
        let cv := convertNodeToRicos g fuel c k
        convertLoop g fuel rest prevHeading (acc ++ cv.1) cv.2
      else if tagLower c = "th" ∨ tagLower c = "td" then
        let inl := processTextAndInlineElements g fuel c k
        convertLoop g fuel rest prevHeading (acc ++ inl.1) inl.2
      else if ["strong", "em", "a", "b", "i", "u", "span"].contains (tagLower c) then
        let inl := processTextAndInlineElements g fuel c k
        convertLoop g fuel rest prevHeading (acc ++ inl.1) inl.2
      else if tagLower c = "img" then
        let im := makeImageNode g c k
        convertLoop g fuel rest prevHeading (acc ++ [im.1]) im.2
      else if tagLower c = "ul" then
        let lid := g k
        let inner := convertNodeToRicos g fuel c (k + 1)
        convertLoop g fuel rest prevHeading (acc ++ [.bulletedList lid inner.1]) inner.2
      else if tagLower c = "ol" then
        let lid := g k
        let inner := convertNodeToRicos g fuel c (k + 1)
        convertLoop g fuel rest prevHeading (acc ++ [.orderedList lid inner.1]) inner.2
      else if tagLower c = "li" then
        let lid := g k
        let inl := processTextAndInlineElements g fuel c (k + 1)
        convertLoop g fuel rest prevHeading (acc ++ [.listItem lid inl.1]) inl.2
      else if tagLower c = "blockquote" then
        let bid := g k
        let inl := processTextAndInlineElements g fuel c (k + 1)
        convertLoop g fuel rest prevHeading (acc ++ [.blockquote bid inl.1]) inl.2
      else if tagLower c = "pre" ∨ tagLower c = "code" then
        let cid := g k
        convertLoop g fuel rest prevHeading
          (acc ++ [.codeBlock cid [.text { text := textContent c, decorations := none }]])
          (k + 1)
      else if tagLower c = "hr" then
        convertLoop g fuel rest prevHeading (acc ++ [.divider (g k)]) (k + 1)
      else if tagLower c = "br" then
        let s := createSpacingParagraph g k
        convertLoop g fuel rest prevHeading (acc ++ [s.1]) s.2
      else
        let hb := handleBlockElement g fuel c k
        convertLoop g fuel rest prevHeading (acc ++ hb.1) hb.2
termination_by structural fuel cs ph acc k => fuel

end

/-! ## Normalization and the entry point -/

/-- The spacing-enhancement pass of `htmlToRicos`: `prev` models
`previousType` (`none` is the initial `null`), `isFirst` models `i > 0`
being false.  Consecutive spacing nodes are skipped; a spacing paragraph is
inserted before a heading (unless first, or the previous type was spacing)
and after a heading (unless the next input node is already a spacing). -/
def enhanceLoop (g : IdGen) :
    Option String → Bool → List RNode → Nat → List RNode × Nat
  | _, _, [], k => ([], k)
  | prev, isFirst, n :: rest, k =>
    let isSp := isSpacingNode n
    if isSp && prev = some "SPACING" then
      enhanceLoop g prev false rest k
    else if n.typeStr = "HEADING" then
      let pre :=
        if !isFirst && !(prev = some "SPACING") then
          let s := createSpacingParagraph g k
          ([s.1], s.2)
        else ([], k)
      let post :=
        match rest with
        | next :: _ =>
          if isSpacingNode next then ([], pre.2)
          else
            let s := createSpacingParagraph g pre.2
            ([s.1], s.2)
        | [] =>
          let s := createSpacingParagraph g pre.2
          ([s.1], s.2)
      let tr := enhanceLoop g (some "HEADING") false rest post.2
      (pre.1 ++ n :: (post.1 ++ tr.1), tr.2)
    else if isSp then
      let tr := enhanceLoop g (some "SPACING") false rest k
      (n :: tr.1, tr.2)
    else
      let tr := enhanceLoop g (some n.typeStr) false rest k
      (n :: tr.1, tr.2)

/-- The final cleanup of `htmlToRicos`: drop the leading and the trailing
run of spacing paragraphs (the source computes `startIndex`/`endIndex` and
copies the slice, which is the same operation). -/
def trimSpacing (l : List RNode) : List RNode :=
  ((l.dropWhile isSpacingNode).reverse.dropWhile isSpacingNode).reverse

/-- Fuel that comfortably dominates the recursion depth of the converter on
`body` (each DOM node accounts for only a bounded number of nested calls). -/
def fuelFor (body : HNode) : Nat := 16 * hsize body + 16

/-- `htmlToRicos`, from the parsed document body on (sanitizing and parsing
are performed by external collaborators): convert the body's children,
run the spacing-enhancement pass, trim boundary spacing, and wrap the
result in the document envelope. -/
def htmlToRicos (g : IdGen) (body : HNode) : RicosDoc :=
  let main := convertNodeToRicos g (fuelFor body) body 0
  let enh := enhanceLoop g none true main.1 main.2
  { nodes := trimSpacing enh.1 }

/-! ## Observers on the output model -/

-- Whether some Text node anywhere in a node (or node list) has exactly the
-- given decoration sequence.
mutual
def rnodeHasTextDeco (ds : List Decoration) : RNode → Bool
  | .text td => td.decorations = some ds
  | .paragraph _ cs _ => rnodeListHasTextDeco ds cs
  | .heading _ cs _ => rnodeListHasTextDeco ds cs
  | .bulletedList _ cs => rnodeListHasTextDeco ds cs
  | .orderedList _ cs => rnodeListHasTextDeco ds cs
  | .listItem _ cs => rnodeListHasTextDeco ds cs
  | .blockquote _ cs => rnodeListHasTextDeco ds cs
  | .codeBlock _ cs => rnodeListHasTextDeco ds cs
  | .table _ cs _ => rnodeListHasTextDeco ds cs
  | .tableRow _ cs => rnodeListHasTextDeco ds cs
  | .tableCell _ cs _ => rnodeListHasTextDeco ds cs
  | .image _ _ => false
  | .divider _ => false

def rnodeListHasTextDeco (ds : List Decoration) : List RNode → Bool
  | [] => false
  | c :: cs => rnodeHasTextDeco ds c || rnodeListHasTextDeco ds cs
end

def docHasTextDeco (ds : List Decoration) (d : RicosDoc) : Bool :=
  rnodeListHasTextDeco ds d.nodes

-- Whether some Text node anywhere in a node (or node list) carries the
-- given decoration among its decorations.
mutual
def rnodeHasDeco (d : Decoration) : RNode → Bool
  | .text td => (td.decorations.getD []).contains d
  | .paragraph _ cs _ => rnodeListHasDeco d cs
  | .heading _ cs _ => rnodeListHasDeco d cs
  | .bulletedList _ cs => rnodeListHasDeco d cs
  | .orderedList _ cs => rnodeListHasDeco d cs
  | .listItem _ cs => rnodeListHasDeco d cs
  | .blockquote _ cs => rnodeListHasDeco d cs
  | .codeBlock _ cs => rnodeListHasDeco d cs
  | .table _ cs _ => rnodeListHasDeco d cs
  | .tableRow _ cs => rnodeListHasDeco d cs
  | .tableCell _ cs _ => rnodeListHasDeco d cs
  | .image _ _ => false
  | .divider _ => false

def rnodeListHasDeco (d : Decoration) : List RNode → Bool
  | [] => false
  | c :: cs => rnodeHasDeco d c || rnodeListHasDeco d cs
end

def docHasDeco (d : Decoration) (doc : RicosDoc) : Bool :=
  rnodeListHasDeco d doc.nodes

/-- Width field of a leading image node, if any. -/
def headImgWidth : List RNode → Option (Option Int)
  | .image _ d :: _ => some d.width
  | _ => none

/-- Height field of a leading image node, if any. -/
def headImgHeight : List RNode → Option (Option Int)
  | .image _ d :: _ => some d.height
  | _ => none

/-- Layout metadata of a table node, if the node is a table. -/
def tableDataOf : RNode → Option TableData
  | .table _ _ td => some td
  | _ => none

/-- Number of row children of a table node, if the node is a table. -/
def tableRowCount : RNode → Option Nat
  | .table _ cs _ => some cs.length
  | _ => none

/-! ## Fixed inputs used in the concrete theorems -/

/-- A concrete id stream standing for one run of `Math.random`. -/
def gA : IdGen := fun _ => "i"

/-- A second concrete id stream standing for another run. -/
def gB : IdGen := fun _ => "j"

/-- Body holding nothing but `<a href="http://x.com">t</a>`. -/
def bodyBareAnchor : HNode :=
  .elem "body" [] [.elem "a" [("href", "http://x.com")] [.text "t"]]

/-- Body holding `<p><a href="http://x.com">t</a></p>`. -/
def bodyParaAnchor : HNode :=
  .elem "body" [] [.elem "p" [] [.elem "a" [("href", "http://x.com")] [.text "t"]]]

/-- The decoration sequence the claim C1 expects on the anchor text. -/
def anchorDecos : List Decoration :=
  [.link "http://x.com" "SELF" true, .underline]

/-! ## Helper lemmas for symbolic evaluation -/

theorem convertLoop_nil (g : IdGen) (fuel : Nat) (ph : Bool) (acc : List RNode) (k : Nat) :
    convertLoop g fuel [] ph acc k = (acc, k) := by
  cases fuel <;> rfl

theorem cnr_single_text (g : IdGen) (t : String) (attrs : List (String × String))
    (s : String) (h : ¬ jsTrim s = "") (f : Nat) :
    convertNodeToRicos g (f + 2) (.elem t attrs [.text s]) 0 =
      ([.text { text := s, decorations := none }], 0) := by
  simp [convertNodeToRicos, HNode.childrenOf, convertLoop, h, convertLoop_nil, sectionTail,
    HNode.isElem]

/-! ## Claims C1, C2, C3, C5, C6 -/

/-- Claim C1 is false on the code: for a body consisting solely of
`<a href="http://x.com">t</a>`, the tree walker's inline branch calls the
inline processor **on the anchor itself**, which processes the anchor's
children, so the link/underline decorations are never attached — the
document holds a bare undecorated Text node. -/
theorem claim_C1_counterexample :
    docHasTextDeco anchorDecos (htmlToRicos gA bodyBareAnchor) = false ∧
    (htmlToRicos gA bodyBareAnchor).nodes =
      [.text { text := "t", decorations := none }] := by
  constructor <;> rfl

/-- Claim C1, amended: the decoration sequence
`[Link(url "http://x.com", target SELF, rel noreferrer), Underline]` is
attached when the anchor is processed as a child by the Inline Processor —
for the body `<p><a href="http://x.com">t</a></p>` the document is exactly
one paragraph whose Text child carries those decorations; a bare top-level
anchor instead yields an undecorated Text node. -/
theorem claim_C1 (g : IdGen) :
    htmlToRicos g bodyParaAnchor =
      { nodes := [.paragraph (g 0)
          [.text { text := "t", decorations := some anchorDecos }] none] } := rfl

/-- Claim C2 is false on the code: a body holding only the non-blank text
`hello` converts to a document whose single node is a bare `TEXT` node, not
a `PARAGRAPH` wrapping a text leaf. -/
theorem claim_C2_counterexample :
    (htmlToRicos gA (HNode.elem "body" [] [.text "hello"])).nodes =
      [.text { text := "hello", decorations := none }] ∧
    (RNode.text { text := "hello", decorations := none }).typeStr ≠ "PARAGRAPH" := by
  exact ⟨rfl, by decide⟩

/-- Claim C2, amended: for every input whose body consists of one non-blank
plain-text node, the returned document consists of exactly one **bare Text
node** holding that text (the tree walker pushes the text node directly, it
is not wrapped in a paragraph), and the document contains no spacing
nodes. -/
theorem claim_C2 (g : IdGen) (t : String) (attrs : List (String × String)) (s : String)
    (h : ¬ jsTrim s = "") :
    htmlToRicos g (.elem t attrs [.text s]) =
      { nodes := [.text { text := s, decorations := none }] } := by
  unfold htmlToRicos
  rw [show fuelFor (HNode.elem t attrs [.text s]) = 46 + 2 by
    simp [fuelFor, hsize, hsizeList]]
  rw [cnr_single_text g t attrs s h 46]
  rfl

theorem claim_C2_witness :
    (¬ jsTrim "hello" = "") ∧
    htmlToRicos gA (HNode.elem "body" [] [.text "hello"]) =
      { nodes := [.text { text := "hello", decorations := none }] } :=
  ⟨by decide, claim_C2 gA "body" [] "hello" (by decide)⟩

/-- `<table><tr><th>H</th></tr><tr><td>C</td></tr></table>`. -/
def tableTHTD : HNode :=
  .elem "table" [] [.elem "tr" [] [.elem "th" [] [.text "H"]],
                    .elem "tr" [] [.elem "td" [] [.text "C"]]]

/-- A body holding only `tableTHTD`. -/
def bodyTable : HNode := .elem "body" [] [tableTHTD]

/-- Claim C3 is false on the code: for the table
`<table><tr><th>H</th></tr><tr><td>C</td></tr></table>` no Text node in
the resulting document carries a Bold(700) decoration at all — the bold
fallback of the table builder fires only when the cell's inline output is
empty, and `<th>H</th>` has non-empty inline output. -/
theorem claim_C3_counterexample :
    docHasDeco (.bold 700) (htmlToRicos gA bodyTable) = false := rfl

/-- Claim C3, amended: for the input
`<table><tr><th>H</th></tr><tr><td>C</td></tr></table>` the header cell's
Text leaf carries **no** Bold decoration (Bold is attached only on the
empty-inline-content fallback path) and the data cell's Text likewise
carries none: both cells hold a center-aligned paragraph wrapping a plain
undecorated Text leaf. -/
theorem claim_C3 (g : IdGen) :
    htmlToRicos g bodyTable =
      { nodes := [.table (g 6)
          [.tableRow (g 2) [.tableCell (g 0)
             [.paragraph (g 1) [.text { text := "H", decorations := none }]
                (some { textAlignment := "CENTER", indentation := none })] none],
           .tableRow (g 5) [.tableCell (g 3)
             [.paragraph (g 4) [.text { text := "C", decorations := none }]
                (some { textAlignment := "CENTER", indentation := none })] none]]
          { colsWidthRatio := [150], rowsHeight := [50, 50], colsMinWidth := [140],
            borderColor := "#CFCFCF", borderWidth := 1, borderStyle := "solid" }] } := rfl

/-- Body `<div class="section"><p>x</p></div><p>y</p>`. -/
def bodySectionDiv : HNode :=
  .elem "body" []
    [.elem "div" [("class", "section")] [.elem "p" [] [.text "x"]],
     .elem "p" [] [.text "y"]]

/-- Claim C5 is false on the code: in the tree walker's output for a body
whose children are a section-classified div (converting to one paragraph)
followed by a plain paragraph, the two extra section spacing nodes appear
at the **end** of the output sequence, after the following sibling's
paragraph; the position immediately after the div's converted nodes holds
the sibling's paragraph, which is not a spacing node. -/
theorem claim_C5_counterexample :
    (convertNodeToRicos gA (fuelFor bodySectionDiv) bodySectionDiv 0).1 =
      [.paragraph "i" [.text { text := "x", decorations := none }] none,
       .paragraph "i" [.text { text := "y", decorations := none }] none,
       .paragraph "i" [.text { text := " ", decorations := none }] none,
       .paragraph "i" [.text { text := " ", decorations := none }] none] ∧
    isSpacingNode (.paragraph "i" [.text { text := "y", decorations := none }] none)
      = false := by
  constructor <;> rfl

/-- Number of children that are `div` elements with a truthy class
attribute mentioning `section` or `container` — the children for which the
tree walker's second loop appends two spacing nodes each. -/
def countSectionDivs (cs : List HNode) : Nat :=
  (cs.filter (fun c =>
    c.isElem && (tagLower c = "div") && attrTruthy (getAttr c "class")
      && (containsSub ((getAttr c "class").getD "") "section"
          || containsSub ((getAttr c "class").getD "") "container"))).length

theorem sectionTail_spec (g : IdGen) :
    ∀ (cs : List HNode) (k : Nat),
      (sectionTail g cs k).1.length = 2 * countSectionDivs cs ∧
      ∀ x ∈ (sectionTail g cs k).1, isSpacingNode x = true := by
  intro cs
  induction cs with
  | nil => exact fun k => ⟨rfl, fun x hx => absurd hx (List.not_mem_nil x)⟩
  | cons c rest ih =>
    intro k
    cases hc : (c.isElem && (tagLower c = "div") && attrTruthy (getAttr c "class")
      && (containsSub ((getAttr c "class").getD "") "section"
          || containsSub ((getAttr c "class").getD "") "container")) with
    | true =>
      constructor
      · have h1 := (ih ((createSpacingParagraph g (createSpacingParagraph g k).2).2)).1
        simp only [sectionTail, hc, if_true, List.length_cons, countSectionDivs,
          List.filter_cons] at h1 ⊢
        omega
      · intro x hx
        simp only [sectionTail, hc, if_true] at hx
        rcases List.mem_cons.mp hx with h1 | hx2
        · subst h1; rfl
        · rcases List.mem_cons.mp hx2 with h2 | hx3
          · subst h2; rfl
          · exact (ih _).2 x hx3
    | false =>
      constructor
      · have h1 := (ih k).1
        simp only [sectionTail, hc, Bool.false_eq_true, if_false, countSectionDivs,
          List.filter_cons] at h1 ⊢
        omega
      · intro x hx
        simp only [sectionTail, hc, Bool.false_eq_true, if_false] at hx
        exact (ih k).2 x hx

/-- Claim C5, amended: the two extra spacing nodes per section-classified
div child are appended by a second loop **at the end of the tree walker's
whole output for the subtree** — after the converted nodes of all
following siblings — not immediately after that div's nodes: the output is
the main-loop output followed by a tail of `2 · (number of section div
children)` spacing nodes. -/
theorem claim_C5 (g : IdGen) (fuel : Nat) (e : HNode) (k : Nat) :
    (convertNodeToRicos g (fuel + 1) e k).1 =
      (convertLoop g fuel e.childrenOf false [] k).1 ++
        (sectionTail g e.childrenOf (convertLoop g fuel e.childrenOf false [] k).2).1 ∧
    (sectionTail g e.childrenOf (convertLoop g fuel e.childrenOf false [] k).2).1.length
        = 2 * countSectionDivs e.childrenOf ∧
    ∀ x ∈ (sectionTail g e.childrenOf (convertLoop g fuel e.childrenOf false [] k).2).1,
      isSpacingNode x = true := by
  refine ⟨rfl, ?_, ?_⟩
  · exact (sectionTail_spec g e.childrenOf _).1
  · exact (sectionTail_spec g e.childrenOf _).2

/-- Claim C6 is false on the code: an `img` whose `width` attribute is
present but unparsable (`width="abc"`) is emitted with width `NaN`
(modelled `none`), not the default 500; the default applies only when the
attribute is absent. -/
theorem claim_C6_counterexample :
    headImgWidth ((ptiChildren gA 5 none [HNode.elem "img" [("width", "abc")] []] 0).1)
        = some none ∧
    ¬ (some (none : Option Int) = some (some (500 : Int))) := by
  constructor
  · rfl
  · intro h; cases (Option.some.inj h)

/-- Claim C6, amended: for an `img` element processed as an inline node the
emitted image's width (resp. height) is `parseInt` of the attribute value
(with the empty string replaced by `"0"`) when the attribute is present —
which is `NaN`, not 500, for an unparsable non-empty value — and defaults
to 500 (resp. 300) only when the attribute is absent. -/
theorem claim_C6 (g : IdGen) (fuel : Nat) (ps : Option StyleData)
    (attrs : List (String × String)) (cs rest : List HNode) (k : Nat) :
    (headImgWidth ((ptiChildren g (fuel + 1) ps (HNode.elem "img" attrs cs :: rest) k).1)
        = some (imgDim (getAttr (HNode.elem "img" attrs cs) "width") 500)) ∧
    (headImgHeight ((ptiChildren g (fuel + 1) ps (HNode.elem "img" attrs cs :: rest) k).1)
        = some (imgDim (getAttr (HNode.elem "img" attrs cs) "height") 300)) ∧
    imgDim none 500 = some 500 ∧
    imgDim (some "abc") 500 = none ∧
    imgDim (some "") 500 = some 0 ∧
    imgDim (some "42") 500 = some 42 := by
  refine ⟨rfl, rfl, rfl, by decide, by decide, by decide⟩

/-! ## Claim C9 -/

theorem convertLoop_blank (g : IdGen) :
    ∀ (cs : List HNode), (∀ c ∈ cs, ∃ s, c = HNode.text s ∧ jsTrim s = "") →
      ∀ fuel ph acc k, convertLoop g fuel cs ph acc k = (acc, k) := by
  intro cs
  induction cs with
  | nil => intro _ fuel ph acc k; exact convertLoop_nil g fuel ph acc k
  | cons c rest ih =>
    intro h fuel ph acc k
    obtain ⟨s, rfl, hs⟩ := h c (List.mem_cons_self c rest)
    cases fuel with
    | zero => rfl
    | succ f =>
      have hrest := fun c hc => h c (List.mem_cons_of_mem _ hc)
      simp [convertLoop, hs, ih hrest]

theorem sectionTail_no_elem (g : IdGen) :
    ∀ (cs : List HNode), (∀ c ∈ cs, c.isElem = false) →
      ∀ k, sectionTail g cs k = ([], k) := by
  intro cs
  induction cs with
  | nil => intro _ k; rfl
  | cons c rest ih =>
    intro h k
    have hc := h c (List.mem_cons_self c rest)
    have hrest := fun c hc => h c (List.mem_cons_of_mem _ hc)
    simp [sectionTail, hc, ih hrest]

/-- Claim C9: for every input whose body is empty or contains only
whitespace-only text children, the conversion returns a document with an
empty node sequence — no error value and no placeholder node. -/
theorem claim_C9 (g : IdGen) (t : String) (attrs : List (String × String))
    (cs : List HNode) (h : ∀ c ∈ cs, ∃ s, c = HNode.text s ∧ jsTrim s = "") :
    htmlToRicos g (.elem t attrs cs) = { nodes := [] } := by
  unfold htmlToRicos
  obtain ⟨f, hf⟩ : ∃ f, fuelFor (HNode.elem t attrs cs) = f + 1 :=
    ⟨16 * hsize (HNode.elem t attrs cs) + 15, by simp only [fuelFor]⟩
  rw [hf]
  have hblank := convertLoop_blank g cs h f false [] 0
  have helem : ∀ c ∈ cs, HNode.isElem c = false := by
    intro c hc; obtain ⟨s, rfl, _⟩ := h c hc; rfl
  simp [convertNodeToRicos, HNode.childrenOf, hblank, sectionTail_no_elem g cs helem,
    enhanceLoop, trimSpacing]

theorem claim_C9_witness :
    (∀ c ∈ [HNode.text " \n "], ∃ s, c = HNode.text s ∧ jsTrim s = "") ∧
    htmlToRicos gA (.elem "body" [] [HNode.text " \n "]) = { nodes := [] } :=
  ⟨by intro c hc
      simp only [List.mem_singleton] at hc
      exact ⟨" \n ", hc, by decide⟩,
   claim_C9 gA "body" [] [HNode.text " \n "]
     (by intro c hc
         simp only [List.mem_singleton] at hc
         exact ⟨" \n ", hc, by decide⟩)⟩

/-! ## Claim C10 -/

/-- The `th`/`td` descendants of a row, `row.querySelectorAll('th, td')`. -/
def cellsOf (r : HNode) : List HNode := queryAll (fun t => t = "th" || t = "td") r

/-- Number of rows that are actually emitted (rows without cells are
skipped by the row loop). -/
def rowsWithCells (rows : List (HNode × String)) : Nat :=
  (rows.filter (fun rp => !(cellsOf rp.1).isEmpty)).length

theorem tableLoop_spec (g : IdGen) :
    ∀ (rows : List (HNode × String)) (fuel : Nat), rows.length ≤ fuel →
    ∀ (aR : List RNode) (aH : List Nat) (aM : Nat) (k : Nat),
      (tableLoop g fuel rows (aR, aH, aM) k).1.1.length = aR.length + rowsWithCells rows ∧
      (tableLoop g fuel rows (aR, aH, aM) k).1.2.1
        = aH ++ List.replicate (rowsWithCells rows) 50 ∧
      (tableLoop g fuel rows (aR, aH, aM) k).1.2.2
        = List.foldl (fun m rp => max m (cellsOf rp.1).length) aM rows := by
  intro rows
  induction rows with
  | nil =>
    intro fuel hf aR aH aM k
    cases fuel <;> simp [tableLoop, rowsWithCells]
  | cons rp rest ih =>
    intro fuel hf aR aH aM k
    cases fuel with
    | zero => simp at hf
    | succ f =>
      have hle : rest.length ≤ f := by
        simp only [List.length_cons] at hf; omega
      cases hempty : (queryAll (fun t => t = "th" || t = "td") rp.1).isEmpty with
      | true =>
        have hlen : (queryAll (fun t => t = "th" || t = "td") rp.1).length = 0 := by
          simp [List.isEmpty_iff.mp hempty]
        have hrwc : rowsWithCells (rp :: rest) = rowsWithCells rest := by
          simp [rowsWithCells, List.filter_cons, cellsOf, hempty]
        obtain ⟨ih1, ih2, ih3⟩ := ih f hle aR aH aM k
        refine ⟨?_, ?_, ?_⟩
        · simp only [tableLoop, hempty, if_true, ih1, hrwc]
        · simp only [tableLoop, hempty, if_true, ih2, hrwc]
        · simp only [tableLoop, hempty, if_true, ih3, List.foldl_cons, cellsOf, hlen]
          congr 1
          omega
      | false =>
        have hunf : tableLoop g (f + 1) (rp :: rest) (aR, aH, aM) k =
            tableLoop g f rest
              (aR ++ [.tableRow
                 (g ((tableCellsLoop g f (queryAll (fun t => t = "th" || t = "td") rp.1)
                       (rp.2 = "thead") k).2))
                 ((tableCellsLoop g f (queryAll (fun t => t = "th" || t = "td") rp.1)
                       (rp.2 = "thead") k).1)],
               aH ++ [50],
               max aM (queryAll (fun t => t = "th" || t = "td") rp.1).length)
              ((tableCellsLoop g f (queryAll (fun t => t = "th" || t = "td") rp.1)
                 (rp.2 = "thead") k).2 + 1) := by
          simp [tableLoop, hempty]
        have hrwc : rowsWithCells (rp :: rest) = rowsWithCells rest + 1 := by
          simp [rowsWithCells, List.filter_cons, cellsOf, hempty]
        obtain ⟨ih1, ih2, ih3⟩ := ih f hle
          (aR ++ [.tableRow
             (g ((tableCellsLoop g f (queryAll (fun t => t = "th" || t = "td") rp.1)
                   (rp.2 = "thead") k).2))
             ((tableCellsLoop g f (queryAll (fun t => t = "th" || t = "td") rp.1)
                   (rp.2 = "thead") k).1)])
          (aH ++ [50]) (max aM (queryAll (fun t => t = "th" || t = "td") rp.1).length)
          ((tableCellsLoop g f (queryAll (fun t => t = "th" || t = "td") rp.1)
             (rp.2 = "thead") k).2 + 1)
        refine ⟨?_, ?_, ?_⟩
        · rw [hunf, ih1, hrwc]
          simp only [List.length_append, List.length_singleton]
          omega
        · rw [hunf, ih2, hrwc, List.append_assoc, List.singleton_append,
            ← List.replicate_succ]
        · rw [hunf, ih3, List.foldl_cons]
          simp [cellsOf]

/-- Claim C10: for every table element with at least one row containing at
least one cell (and fuel covering the row count, as the entry point always
supplies), the emitted table's layout metadata consists of the fixed
constants of the source: `colsWidthRatio`/`colsMinWidth` of length equal to
the maximum cell count over the rows with entries 150 resp. 140, one
`rowsHeight` entry of 50 per emitted row, border color `#CFCFCF`, border
width 1, border style `solid`. -/
theorem claim_C10 (g : IdGen) (fuel : Nat) (e : HNode) (k : Nat)
    (hfuel : (queryAllPar (fun t => t = "tr") e).length ≤ fuel)
    (hcell : ∃ rp ∈ queryAllPar (fun t => t = "tr") e, ¬(cellsOf rp.1).isEmpty = true) :
    tableDataOf (handleTable g (fuel + 1) e k).1 = some
      { colsWidthRatio := List.replicate
          (List.foldl (fun m rp => max m (cellsOf rp.1).length) 0
            (queryAllPar (fun t => t = "tr") e)) 150
        rowsHeight := List.replicate (rowsWithCells (queryAllPar (fun t => t = "tr") e)) 50
        colsMinWidth := List.replicate
          (List.foldl (fun m rp => max m (cellsOf rp.1).length) 0
            (queryAllPar (fun t => t = "tr") e)) 140
        borderColor := "#CFCFCF"
        borderWidth := 1
        borderStyle := "solid" } ∧
    tableRowCount (handleTable g (fuel + 1) e k).1
      = some (rowsWithCells (queryAllPar (fun t => t = "tr") e)) := by
  obtain ⟨rp0, hrp0, _⟩ := hcell
  have hne : (queryAllPar (fun t => t = "tr") e).isEmpty = false := by
    cases hq : queryAllPar (fun t => t = "tr") e with
    | nil => rw [hq] at hrp0; cases hrp0
    | cons a l => simp
  obtain ⟨h1, h2, h3⟩ := tableLoop_spec g (queryAllPar (fun t => t = "tr") e) fuel hfuel
    [] [] 0 k
  constructor
  · simp only [handleTable, hne, Bool.false_eq_true, if_false, tableDataOf, h2, h3,
      List.nil_append, Option.some.injEq]
  · simp only [handleTable, hne, Bool.false_eq_true, if_false, tableRowCount, h1,
      List.length_nil, Nat.zero_add]

theorem claim_C10_witness :
    ((queryAllPar (fun t => t = "tr") tableTHTD).length ≤ 9) ∧
    (∃ rp ∈ queryAllPar (fun t => t = "tr") tableTHTD, ¬(cellsOf rp.1).isEmpty = true) ∧
    (tableDataOf (handleTable gA (9 + 1) tableTHTD 0).1 = some
      { colsWidthRatio := List.replicate
          (List.foldl (fun m rp => max m (cellsOf rp.1).length) 0
            (queryAllPar (fun t => t = "tr") tableTHTD)) 150
        rowsHeight := List.replicate
          (rowsWithCells (queryAllPar (fun t => t = "tr") tableTHTD)) 50
        colsMinWidth := List.replicate
          (List.foldl (fun m rp => max m (cellsOf rp.1).length) 0
            (queryAllPar (fun t => t = "tr") tableTHTD)) 140
        borderColor := "#CFCFCF"
        borderWidth := 1
        borderStyle := "solid" } ∧
    tableRowCount (handleTable gA (9 + 1) tableTHTD 0).1
      = some (rowsWithCells (queryAllPar (fun t => t = "tr") tableTHTD))) :=
  ⟨by decide, by decide, claim_C10 gA 9 tableTHTD 0 (by decide) (by decide)⟩

/-! ## Claim C4: no two adjacent spacing nodes

The proof rests on an invariant of the tree walker's output: every heading
in the top-level sequence is immediately followed by a spacing node (both
the block dispatcher and the tree walker always push a spacing right after
a heading).  Under that invariant the enhancement pass never produces two
adjacent spacing nodes, and the boundary trim preserves the property. -/

def headIsSpacing : List RNode → Bool
  | [] => false
  | y :: _ => isSpacingNode y

/-- Every heading in the list is immediately followed by a spacing node
(in particular, a heading is never last). -/
def headingOk : List RNode → Bool
  | [] => true
  | [x] => !(x.typeStr = "HEADING")
  | x :: y :: r => (!(x.typeStr = "HEADING") || isSpacingNode y) && headingOk (y :: r)

theorem headingOk_cons (x : RNode) (l : List RNode) :
    headingOk (x :: l) = ((!(x.typeStr = "HEADING") || headIsSpacing l) && headingOk l) := by
  cases l <;> simp [headingOk, headIsSpacing]

theorem headingOk_tail {x : RNode} {l : List RNode} (h : headingOk (x :: l) = true) :
    headingOk l = true := by
  rw [headingOk_cons, Bool.and_eq_true] at h
  exact h.2

theorem headingOk_cons_nh {x : RNode} (hx : x.typeStr ≠ "HEADING")
    {l : List RNode} (h : headingOk l = true) : headingOk (x :: l) = true := by
  rw [headingOk_cons]
  simp [hx, h]

theorem headingOk_cons_sp {x : RNode} {s : RNode} (hs : isSpacingNode s = true)
    {l : List RNode} (h : headingOk (s :: l) = true) :
    headingOk (x :: s :: l) = true := by
  rw [headingOk_cons]
  simp [headIsSpacing, hs, h]

theorem headingOk_append : ∀ {a b : List RNode},
    headingOk a = true → headingOk b = true → headingOk (a ++ b) = true
  | [], _, _, hb => hb
  | [x], b, ha, hb => by
    have hx : x.typeStr ≠ "HEADING" := by
      simp only [headingOk, Bool.not_eq_true', decide_eq_false_iff_not] at ha
      exact ha
    exact headingOk_cons_nh hx hb
  | x :: y :: r, b, ha, hb => by
    rw [headingOk_cons, Bool.and_eq_true] at ha
    obtain ⟨h1, h2⟩ := ha
    have hrec := headingOk_append (a := y :: r) h2 hb
    rw [List.cons_append, headingOk_cons, hrec]
    simp only [headIsSpacing] at h1 ⊢
    simp [h1]

theorem spacing_not_heading {x : RNode} (h : isSpacingNode x = true) :
    x.typeStr ≠ "HEADING" := by
  cases x <;> simp_all [isSpacingNode, RNode.typeStr]

theorem heading_not_spacing {x : RNode} (h : x.typeStr = "HEADING") :
    isSpacingNode x = false := by
  cases x <;> simp_all [isSpacingNode, RNode.typeStr]

theorem headingOk_of_all_spacing : ∀ {l : List RNode},
    (∀ x ∈ l, isSpacingNode x = true) → headingOk l = true
  | [], _ => rfl
  | x :: r, h => by
    have hx := h x (List.mem_cons_self x r)
    exact headingOk_cons_nh (spacing_not_heading hx)
      (headingOk_of_all_spacing (fun y hy => h y (List.mem_cons_of_mem _ hy)))

theorem isSpacing_csp (g : IdGen) (k : Nat) :
    isSpacingNode (createSpacingParagraph g k).1 = true := rfl

theorem nh_csp (g : IdGen) (k : Nat) :
    ((createSpacingParagraph g k).1).typeStr ≠ "HEADING" := by
  simp [createSpacingParagraph, RNode.typeStr]

theorem headingOk_fst_ite {c : Prop} [Decidable c] {a b : List RNode × Nat}
    (ha : headingOk a.1 = true) (hb : headingOk b.1 = true) :
    headingOk ((if c then a else b).1) = true := by
  split <;> assumption

set_option maxHeartbeats 3200000 in
/-- The heading-followed-by-spacing invariant holds for the output of every
converter function, at every fuel value. -/
theorem headingOk_master (g : IdGen) : ∀ fuel : Nat,
    (∀ ps cs k, headingOk (ptiChildren g fuel ps cs k).1 = true) ∧
    (∀ e k, headingOk (processTextAndInlineElements g fuel e k).1 = true) ∧
    (∀ e k, headingOk (handleBlockElement g fuel e k).1 = true) ∧
    (∀ cs k, headingOk (divChildrenLoop g fuel cs k).1 = true) ∧
    (∀ e k, headingOk (convertNodeToRicos g fuel e k).1 = true) ∧
    (∀ cs ph acc k, headingOk acc = true →
      headingOk (convertLoop g fuel cs ph acc k).1 = true) := by
  intro fuel
  induction fuel with
  | zero =>
    exact ⟨fun ps cs k => rfl, fun e k => rfl, fun e k => rfl, fun cs k => rfl,
      fun e k => rfl, fun cs ph acc k h => h⟩
  | succ n ih =>
    obtain ⟨ihPC, ihPTI, ihHBE, ihDL, ihCNR, ihCL⟩ := ih
    have hPC : ∀ ps cs k, headingOk (ptiChildren g (n + 1) ps cs k).1 = true := by
      intro ps cs k
      match cs with
      | [] => rfl
      | c :: rest =>
        cases c with
        | text s =>
          rw [ptiChildren.eq_3]
          split
          · exact headingOk_cons_nh (by simp [RNode.typeStr]) (ihPC _ _ _)
          · exact ihPC _ _ _
        | elem t attrs ccs =>
          rw [ptiChildren.eq_4]
          split
          · exact headingOk_cons_nh (by simp [RNode.typeStr]) (ihPC _ _ _)
          · split
            · exact headingOk_cons_nh (by simp [RNode.typeStr]) (ihPC _ _ _)
            · split
              · exact headingOk_cons_nh (by simp [RNode.typeStr]) (ihPC _ _ _)
              · split
                · exact headingOk_cons_nh (by simp [RNode.typeStr]) (ihPC _ _ _)
                · split
                  · exact headingOk_append (ihPTI _ _) (ihPC _ _ _)
                  · split
                    · exact headingOk_cons_nh (by simp [RNode.typeStr]) (ihPC _ _ _)
                    · split
                      · exact headingOk_cons_nh
                          (by simp [makeImageNode, RNode.typeStr]) (ihPC _ _ _)
                      · split
                        · exact headingOk_append (ihHBE _ _) (ihPC _ _ _)
                        · exact headingOk_append (ihPTI _ _) (ihPC _ _ _)
    have hPTI : ∀ e k, headingOk (processTextAndInlineElements g (n + 1) e k).1 = true := by
      intro e k
      simp only [processTextAndInlineElements]
      exact ihPC _ _ _
    have hHBE : ∀ e k, headingOk (handleBlockElement g (n + 1) e k).1 = true := by
      intro e k
      rw [handleBlockElement.eq_2]
      by_cases h1 : tagLower e = "p"
      · rw [if_pos h1]
        exact headingOk_cons_nh (by simp [RNode.typeStr]) rfl
      rw [if_neg h1]
      by_cases h2 : headingTags.contains (tagLower e) = true
      · rw [if_pos h2]
        exact headingOk_fst_ite
          (headingOk_append
            (headingOk_fst_ite (headingOk_cons_nh (nh_csp _ _) rfl) rfl)
            (headingOk_cons_sp (isSpacing_csp _ _)
              (headingOk_cons_nh (nh_csp _ _) (headingOk_cons_nh (nh_csp _ _) rfl))))
          (headingOk_append
            (headingOk_fst_ite (headingOk_cons_nh (nh_csp _ _) rfl) rfl)
            (headingOk_cons_sp (isSpacing_csp _ _) (headingOk_cons_nh (nh_csp _ _) rfl)))
      rw [if_neg h2]
      by_cases h3 : tagLower e = "ul"
      · rw [if_pos h3]
        exact headingOk_cons_sp (isSpacing_csp _ _) (headingOk_cons_nh (nh_csp _ _) rfl)
      rw [if_neg h3]
      by_cases h4 : tagLower e = "ol"
      · rw [if_pos h4]
        exact headingOk_cons_sp (isSpacing_csp _ _) (headingOk_cons_nh (nh_csp _ _) rfl)
      rw [if_neg h4]
      by_cases h5 : tagLower e = "li"
      · rw [if_pos h5]
        exact headingOk_cons_nh (by simp [RNode.typeStr]) rfl
      rw [if_neg h5]
      by_cases h6 : tagLower e = "blockquote"
      · rw [if_pos h6]
        exact headingOk_cons_sp (isSpacing_csp _ _) (headingOk_cons_nh (nh_csp _ _) rfl)
      rw [if_neg h6]
      by_cases h7 : tagLower e = "pre" ∨ tagLower e = "code"
      · rw [if_pos h7]
        exact headingOk_cons_sp (isSpacing_csp _ _) (headingOk_cons_nh (nh_csp _ _) rfl)
      rw [if_neg h7]
      by_cases h8 : tagLower e = "div"
      · rw [if_pos h8]
        exact headingOk_append
          (headingOk_append
            (headingOk_fst_ite
              (headingOk_cons_nh (nh_csp _ _) (headingOk_cons_nh (nh_csp _ _) rfl)) rfl)
            (headingOk_fst_ite (ihDL _ _)
              (headingOk_cons_nh (by simp [RNode.typeStr]) rfl)))
          (headingOk_fst_ite
            (headingOk_cons_nh (nh_csp _ _) (headingOk_cons_nh (nh_csp _ _) rfl)) rfl)
      rw [if_neg h8]
      exact headingOk_cons_nh (by simp [RNode.typeStr]) rfl
    have hDL : ∀ cs k, headingOk (divChildrenLoop g (n + 1) cs k).1 = true := by
      intro cs k
      match cs with
      | [] => rfl
      | c :: rest =>
        cases c with
        | elem t attrs ccs =>
          rw [divChildrenLoop.eq_3]
          exact headingOk_append (ihCNR _ _) (ihDL _ _)
        | text s =>
          rw [divChildrenLoop.eq_4]
          split
          · exact headingOk_cons_nh (by simp [RNode.typeStr]) (ihDL _ _)
          · exact ihDL _ _
    have hCL : ∀ cs ph acc k, headingOk acc = true →
        headingOk (convertLoop g (n + 1) cs ph acc k).1 = true := by
      intro cs ph acc k hacc
      match cs with
      | [] => exact hacc
      | c :: rest =>
        cases c with
        | text s =>
          rw [convertLoop.eq_3]
          split
          · exact ihCL _ _ _ _
              (headingOk_append hacc (headingOk_cons_nh (by simp [RNode.typeStr]) rfl))
          · exact ihCL _ _ _ _ hacc
        | elem t attrs ccs =>
          rw [convertLoop.eq_4]
          by_cases h1 : tagLower (.elem t attrs ccs) = "p"
          · rw [if_pos h1]
            exact ihCL _ _ _ _ (headingOk_append hacc (ihHBE _ _))
          rw [if_neg h1]
          by_cases h2 : headingTags.contains (tagLower (.elem t attrs ccs)) = true
          · rw [if_pos h2]
            exact ihCL _ _ _ _
              (headingOk_append
                (headingOk_append hacc
                  (headingOk_fst_ite (headingOk_cons_nh (nh_csp _ _) rfl) rfl))
                (headingOk_cons_sp (isSpacing_csp _ _)
                  (headingOk_cons_nh (nh_csp _ _) rfl)))
          rw [if_neg h2]
          by_cases h3 : tagLower (.elem t attrs ccs) = "div"
          · rw [if_pos h3]
            exact ihCL _ _ _ _ (headingOk_append hacc (ihCNR _ _))
          rw [if_neg h3]
          by_cases h4 : tagLower (.elem t attrs ccs) = "table"
          · rw [if_pos h4]
            exact ihCL _ _ _ _
              (headingOk_append hacc
                (headingOk_cons_sp (isSpacing_csp _ _)
                  (headingOk_cons_nh (nh_csp _ _) rfl)))
          rw [if_neg h4]
          by_cases h5 : tagLower (.elem t attrs ccs) = "thead" ∨
            tagLower (.elem t attrs ccs) = "tbody" ∨ tagLower (.elem t attrs ccs) = "tfoot"
          · rw [if_pos h5]
            exact ihCL _ _ _ _ (headingOk_append hacc (ihCNR _ _))
          rw [if_neg h5]
          by_cases h6 : tagLower (.elem t attrs ccs) = "tr"
          · rw [if_pos h6]
            exact ihCL _ _ _ _ (headingOk_append hacc (ihCNR _ _))
          rw [if_neg h6]
          by_cases h7 : tagLower (.elem t attrs ccs) = "th" ∨
            tagLower (.elem t attrs ccs) = "td"
          · rw [if_pos h7]
            exact ihCL _ _ _ _ (headingOk_append hacc (ihPTI _ _))
          rw [if_neg h7]
          by_cases h8 : ["strong", "em", "a", "b", "i", "u", "span"].contains
            (tagLower (.elem t attrs ccs)) = true
          · rw [if_pos h8]
            exact ihCL _ _ _ _ (headingOk_append hacc (ihPTI _ _))
          rw [if_neg h8]
          by_cases h9 : tagLower (.elem t attrs ccs) = "img"
          · rw [if_pos h9]
            exact ihCL _ _ _ _
              (headingOk_append hacc
                (headingOk_cons_nh (by simp [makeImageNode, RNode.typeStr]) rfl))
          rw [if_neg h9]
          by_cases h10 : tagLower (.elem t attrs ccs) = "ul"
          · rw [if_pos h10]
            exact ihCL _ _ _ _
              (headingOk_append hacc (headingOk_cons_nh (by simp [RNode.typeStr]) rfl))
          rw [if_neg h10]
          by_cases h11 : tagLower (.elem t attrs ccs) = "ol"
          · rw [if_pos h11]
            exact ihCL _ _ _ _
              (headingOk_append hacc (headingOk_cons_nh (by simp [RNode.typeStr]) rfl))
          rw [if_neg h11]
          by_cases h12 : tagLower (.elem t attrs ccs) = "li"
          · rw [if_pos h12]
            exact ihCL _ _ _ _
              (headingOk_append hacc (headingOk_cons_nh (by simp [RNode.typeStr]) rfl))
          rw [if_neg h12]
          by_cases h13 : tagLower (.elem t attrs ccs) = "blockquote"
          · rw [if_pos h13]
            exact ihCL _ _ _ _
              (headingOk_append hacc (headingOk_cons_nh (by simp [RNode.typeStr]) rfl))
          rw [if_neg h13]
          by_cases h14 : tagLower (.elem t attrs ccs) = "pre" ∨
            tagLower (.elem t attrs ccs) = "code"
          · rw [if_pos h14]
            exact ihCL _ _ _ _
              (headingOk_append hacc (headingOk_cons_nh (by simp [RNode.typeStr]) rfl))
          rw [if_neg h14]
          by_cases h15 : tagLower (.elem t attrs ccs) = "hr"
          · rw [if_pos h15]
            exact ihCL _ _ _ _
              (headingOk_append hacc (headingOk_cons_nh (by simp [RNode.typeStr]) rfl))
          rw [if_neg h15]
          by_cases h16 : tagLower (.elem t attrs ccs) = "br"
          · rw [if_pos h16]
            exact ihCL _ _ _ _
              (headingOk_append hacc (headingOk_cons_nh (nh_csp _ _) rfl))
          rw [if_neg h16]
          exact ihCL _ _ _ _ (headingOk_append hacc (ihHBE _ _))
    have hCNR : ∀ e k, headingOk (convertNodeToRicos g (n + 1) e k).1 = true := by
      intro e k
      rw [convertNodeToRicos.eq_2]
      exact headingOk_append (ihCL _ _ [] _ rfl)
        (headingOk_of_all_spacing (sectionTail_spec g _ _).2)
    exact ⟨hPC, hPTI, hHBE, hDL, hCNR, hCL⟩

/-- Two adjacent positions never both hold spacing nodes. -/
def SpacingApart (a b : RNode) : Prop :=
  ¬(isSpacingNode a = true ∧ isSpacingNode b = true)

theorem chainSA_cons_of_not_spacing {n : RNode} (hn : isSpacingNode n = false)
    {l : List RNode} (hl : List.Chain' SpacingApart l) :
    List.Chain' SpacingApart (n :: l) := by
  rw [List.chain'_cons']
  refine ⟨?_, hl⟩
  intro y _
  intro hand
  rw [hn] at hand
  cases hand.1

theorem chainSA_cons_head_not_spacing {x n : RNode} (hn : isSpacingNode n = false)
    {l : List RNode} (hl : List.Chain' SpacingApart (n :: l)) :
    List.Chain' SpacingApart (x :: n :: l) := by
  rw [List.chain'_cons']
  refine ⟨?_, hl⟩
  intro y hy hand
  simp only [List.head?_cons, Option.mem_def, Option.some.injEq] at hy
  subst hy
  rw [hn] at hand
  cases hand.2

theorem enhance_chain (g : IdGen) :
    ∀ (l : List RNode) (prev : Option String) (first : Bool) (k : Nat),
      headingOk l = true →
      List.Chain' SpacingApart (enhanceLoop g prev first l k).1 ∧
      (prev = some "SPACING" →
        headIsSpacing (enhanceLoop g prev first l k).1 = false) := by
  intro l
  induction l with
  | nil => exact fun prev first k _ => ⟨List.chain'_nil, fun _ => rfl⟩
  | cons n rest ih =>
    intro prev first k hok
    have hokRest : headingOk rest = true := headingOk_tail hok
    rw [enhanceLoop.eq_2]
    by_cases hskip : (isSpacingNode n && decide (prev = some "SPACING")) = true
    · rw [if_pos hskip]
      rw [Bool.and_eq_true, decide_eq_true_eq] at hskip
      obtain ⟨hsp, hprev⟩ := hskip
      exact ⟨(ih prev false k hokRest).1, fun _ => (ih prev false k hokRest).2 hprev⟩
    rw [if_neg hskip]
    by_cases hhead : n.typeStr = "HEADING"
    · rw [if_pos hhead]
      have hnsp : isSpacingNode n = false := heading_not_spacing hhead
      rw [headingOk_cons, Bool.and_eq_true] at hok
      obtain ⟨h1, _⟩ := hok
      have hhs : headIsSpacing rest = true := by
        rw [Bool.or_eq_true] at h1
        rcases h1 with hl | hr
        · rw [Bool.not_eq_true', decide_eq_false_iff_not] at hl
          exact absurd hhead hl
        · exact hr
      cases rest with
      | nil => simp [headIsSpacing] at hhs
      | cons y rest2 =>
        have hy : isSpacingNode y = true := hhs
        simp only [hy, if_true]
        constructor
        · by_cases hpre : (!first && !(decide (prev = some "SPACING"))) = true
          · rw [if_pos hpre]
            simp only [List.singleton_append, List.nil_append]
            exact chainSA_cons_head_not_spacing hnsp
              (chainSA_cons_of_not_spacing hnsp
                ((ih (some "HEADING") false _ hokRest).1))
          · rw [if_neg hpre]
            simp only [List.nil_append]
            exact chainSA_cons_of_not_spacing hnsp
              ((ih (some "HEADING") false _ hokRest).1)
        · intro hprev
          have hcond : (!first && !(decide (prev = some "SPACING"))) = false := by
            simp [hprev]
          rw [hcond]
          simp only [Bool.false_eq_true, if_false, List.nil_append, headIsSpacing]
          exact hnsp
    rw [if_neg hhead]
    by_cases hsp : isSpacingNode n = true
    · rw [if_pos hsp]
      have hprevne : ¬(prev = some "SPACING") := by
        intro hprev
        exact hskip (by simp [hsp, hprev])
      have hrec := ih (some "SPACING") false k hokRest
      have hh : headIsSpacing (enhanceLoop g (some "SPACING") false rest k).1 = false :=
        hrec.2 rfl
      constructor
      · rw [List.chain'_cons']
        refine ⟨?_, hrec.1⟩
        intro y hy hand
        cases hl : (enhanceLoop g (some "SPACING") false rest k).1 with
        | nil => rw [hl] at hy; cases hy
        | cons z zs =>
          rw [hl] at hy
          simp only [List.head?_cons, Option.mem_def, Option.some.injEq] at hy
          subst hy
          rw [hl] at hh
          simp only [headIsSpacing] at hh
          rw [hh] at hand
          cases hand.2
      · intro hprev; exact absurd hprev hprevne
    · rw [if_neg hsp]
      have hnsp : isSpacingNode n = false := by
        cases h2 : isSpacingNode n with
        | true => exact absurd h2 hsp
        | false => rfl
      have hrec := ih (some n.typeStr) false k hokRest
      refine ⟨chainSA_cons_of_not_spacing hnsp hrec.1, fun _ => ?_⟩
      simp only [headIsSpacing]
      exact hnsp

theorem chainSA_reverse {l : List RNode} (h : List.Chain' SpacingApart l) :
    List.Chain' SpacingApart l.reverse := by
  rw [List.chain'_reverse]
  exact h.imp (fun a b hab hand => hab ⟨hand.2, hand.1⟩)

theorem chainSA_trim {l : List RNode} (h : List.Chain' SpacingApart l) :
    List.Chain' SpacingApart (trimSpacing l) := by
  unfold trimSpacing
  exact chainSA_reverse
    ((chainSA_reverse (h.suffix (List.dropWhile_suffix _))).suffix
      (List.dropWhile_suffix _))

/-- Claim C4: for every input (and every id stream), no two spacing nodes
— paragraphs whose sole child is a Text holding exactly one space — appear
at adjacent positions in the top-level node sequence of the final
document: the tree walker always follows a heading with a spacing node, so
the enhancement pass never produces two adjacent spacings, and the
boundary trim preserves the property. -/
theorem claim_C4 (g : IdGen) (body : HNode) :
    List.Chain' SpacingApart (htmlToRicos g body).nodes := by
  have hok : headingOk (convertNodeToRicos g (fuelFor body) body 0).1 = true := by
    have h := (headingOk_master g (fuelFor body)).2.2.2.2.1
    exact h body 0
  exact chainSA_trim
    (enhance_chain g _ none true (convertNodeToRicos g (fuelFor body) body 0).2 hok).1

/-! ## Claim C7: Text content discipline

The claim fails on the code (flattened empty inline elements yield empty
Text nodes); the amended claim restricts the input: every element whose
flattened text the converter copies verbatim (`strong`/`b`/`em`/`i`/`u`/
`a`, `pre`/`code`, and the table cells `th`/`td`) must have non-blank text
content. -/

/-- The content condition of the claim: non-blank after trimming, or one
of the two deliberate markers. -/
def textOkStr (t : String) : Bool :=
  !(jsTrim t = "") || t = " " || t = "\n"

-- Every Text node anywhere inside a node (or node list) satisfies
-- textOkStr.
mutual
def textsOk : RNode → Bool
  | .text td => textOkStr td.text
  | .paragraph _ cs _ => textsOkList cs
  | .heading _ cs _ => textsOkList cs
  | .bulletedList _ cs => textsOkList cs
  | .orderedList _ cs => textsOkList cs
  | .listItem _ cs => textsOkList cs
  | .blockquote _ cs => textsOkList cs
  | .codeBlock _ cs => textsOkList cs
  | .table _ cs _ => textsOkList cs
  | .tableRow _ cs => textsOkList cs
  | .tableCell _ cs _ => textsOkList cs
  | .image _ _ => true
  | .divider _ => true

def textsOkList : List RNode → Bool
  | [] => true
  | c :: cs => textsOk c && textsOkList cs
end

/-- The tags whose flattened `textContent` the converter copies verbatim
into a Text node. -/
def flattenTags : List String :=
  ["strong", "b", "em", "i", "u", "a", "pre", "code", "th", "td"]

-- The input-side hypothesis of the amended claim: every element carrying a
-- flatten tag has non-blank text content.
mutual
def goodInput : HNode → Bool
  | .text _ => true
  | .elem t _ cs =>
      (!(flattenTags.contains (lowerStr t)) || !(jsTrim (textContentList cs) = ""))
        && goodInputList cs

def goodInputList : List HNode → Bool
  | [] => true
  | c :: cs => goodInput c && goodInputList cs
end

theorem textsOkList_append : ∀ {a b : List RNode},
    textsOkList a = true → textsOkList b = true → textsOkList (a ++ b) = true
  | [], _, _, hb => hb
  | x :: r, b, ha, hb => by
    rw [textsOkList, Bool.and_eq_true] at ha
    rw [List.cons_append, textsOkList, Bool.and_eq_true]
    exact ⟨ha.1, textsOkList_append ha.2 hb⟩

theorem textsOkList_cons {x : RNode} {l : List RNode}
    (hx : textsOk x = true) (hl : textsOkList l = true) :
    textsOkList (x :: l) = true := by
  rw [textsOkList, Bool.and_eq_true]
  exact ⟨hx, hl⟩

theorem textsOk_csp (g : IdGen) (k : Nat) :
    textsOk (createSpacingParagraph g k).1 = true := rfl

theorem textsOkList_forall : ∀ {l : List RNode},
    textsOkList l = true → ∀ x ∈ l, textsOk x = true
  | [], _, x, hx => absurd hx (List.not_mem_nil x)
  | c :: r, h, x, hx => by
    rw [textsOkList, Bool.and_eq_true] at h
    rcases List.mem_cons.mp hx with h1 | h2
    · subst h1; exact h.1
    · exact textsOkList_forall h.2 x h2

theorem forall_textsOkList : ∀ {l : List RNode},
    (∀ x ∈ l, textsOk x = true) → textsOkList l = true
  | [], _ => rfl
  | c :: r, h =>
    textsOkList_cons (h c (List.mem_cons_self c r))
      (forall_textsOkList (fun y hy => h y (List.mem_cons_of_mem _ hy)))

theorem goodInputList_cons {c : HNode} {cs : List HNode}
    (h : goodInputList (c :: cs) = true) :
    goodInput c = true ∧ goodInputList cs = true := by
  rw [goodInputList, Bool.and_eq_true] at h
  exact h

theorem goodInput_children : ∀ {e : HNode}, goodInput e = true →
    goodInputList e.childrenOf = true := by
  intro e h
  cases e with
  | text s => rfl
  | elem t attrs cs =>
    rw [goodInput, Bool.and_eq_true] at h
    exact h.2

theorem goodInputList_mem : ∀ {cs : List HNode}, goodInputList cs = true →
    ∀ c ∈ cs, goodInput c = true
  | [], _, c, hc => absurd hc (List.not_mem_nil c)
  | x :: r, h, c, hc => by
    obtain ⟨h1, h2⟩ := goodInputList_cons h
    rcases List.mem_cons.mp hc with h3 | h4
    · subst h3; exact h1
    · exact goodInputList_mem h2 c h4

theorem goodInput_flatten {t : String} {attrs : List (String × String)}
    {cs : List HNode} (h : goodInput (.elem t attrs cs) = true)
    (hf : flattenTags.contains (lowerStr t) = true) :
    ¬(jsTrim (textContent (.elem t attrs cs)) = "") := by
  rw [goodInput, Bool.and_eq_true] at h
  have h1 := h.1
  rw [Bool.or_eq_true] at h1
  rcases h1 with h2 | h3
  · rw [Bool.not_eq_true', hf] at h2
    cases h2
  · rw [Bool.not_eq_true', decide_eq_false_iff_not] at h3
    exact h3

-- Membership in querySelectorAll results: the hit is a matching element
-- and, when the root is a good input, a good input itself.
mutual
theorem mem_queryAll_good (p : String → Bool) :
    ∀ (e : HNode) (x : HNode), x ∈ queryAll p e → goodInput e = true →
      goodInput x = true ∧ x.isElem = true ∧ p (tagLower x) = true
  | .text _, x, hx, _ => absurd hx (List.not_mem_nil x)
  | .elem t attrs cs, x, hx, he =>
    mem_queryAllList_good p cs x hx (goodInput_children he)

theorem mem_queryAllList_good (p : String → Bool) :
    ∀ (cs : List HNode) (x : HNode), x ∈ queryAllList p cs →
      goodInputList cs = true →
      goodInput x = true ∧ x.isElem = true ∧ p (tagLower x) = true
  | [], x, hx, _ => absurd hx (List.not_mem_nil x)
  | c :: rest, x, hx, hcs => by
    obtain ⟨hc, hrest⟩ := goodInputList_cons hcs
    rw [queryAllList, List.append_assoc, List.mem_append, List.mem_append] at hx
    rcases hx with h1 | h2 | h3
    · by_cases hm : (c.isElem && p (tagLower c)) = true
      · rw [if_pos hm] at h1
        rw [List.mem_singleton] at h1
        subst h1
        rw [Bool.and_eq_true] at hm
        exact ⟨hc, hm.1, hm.2⟩
      · rw [if_neg hm] at h1
        exact absurd h1 (List.not_mem_nil x)
    · exact mem_queryAll_good p c x h2 hc
    · exact mem_queryAllList_good p rest x h3 hrest
end

mutual
theorem mem_queryAllPar_good (p : String → Bool) :
    ∀ (e : HNode) (rp : HNode × String), rp ∈ queryAllPar p e → goodInput e = true →
      goodInput rp.1 = true ∧ rp.1.isElem = true ∧ p (tagLower rp.1) = true
  | .text _, rp, hx, _ => absurd hx (List.not_mem_nil rp)
  | .elem t attrs cs, rp, hx, he =>
    mem_queryAllParList_good p (lowerStr t) cs rp hx (goodInput_children he)

theorem mem_queryAllParList_good (p : String → Bool) :
    ∀ (pt : String) (cs : List HNode) (rp : HNode × String),
      rp ∈ queryAllParList p pt cs → goodInputList cs = true →
      goodInput rp.1 = true ∧ rp.1.isElem = true ∧ p (tagLower rp.1) = true
  | pt, [], rp, hx, _ => absurd hx (List.not_mem_nil rp)
  | pt, c :: rest, rp, hx, hcs => by
    obtain ⟨hc, hrest⟩ := goodInputList_cons hcs
    rw [queryAllParList, List.append_assoc, List.mem_append, List.mem_append] at hx
    rcases hx with h1 | h2 | h3
    · by_cases hm : (c.isElem && p (tagLower c)) = true
      · rw [if_pos hm] at h1
        rw [List.mem_singleton] at h1
        subst h1
        rw [Bool.and_eq_true] at hm
        exact ⟨hc, hm.1, hm.2⟩
      · rw [if_neg hm] at h1
        exact absurd h1 (List.not_mem_nil rp)
    · exact mem_queryAllPar_good p c rp h2 hc
    · exact mem_queryAllParList_good p pt rest rp h3 hrest
end

theorem textOkStr_of_nonblank {t : String} (h : ¬(jsTrim t = "")) :
    textOkStr t = true := by
  rw [textOkStr]
  simp [h]

theorem jsTrim_eq_rdrop (s : String) :
    jsTrim s = String.mk (List.rdropWhile jsWS (s.data.dropWhile jsWS)) := rfl

/-- JavaScript `trim` is idempotent (needed because the div branch pushes
already-trimmed text). -/
theorem jsTrim_idem (s : String) : jsTrim (jsTrim s) = jsTrim s := by
  rw [jsTrim_eq_rdrop, jsTrim_eq_rdrop]
  set A := s.data.dropWhile jsWS with hA
  have hdA : A.dropWhile jsWS = A := List.dropWhile_idempotent jsWS s.data
  have hB : (String.mk (List.rdropWhile jsWS A)).data = List.rdropWhile jsWS A := rfl
  rw [hB]
  have hpre : List.rdropWhile jsWS A <+: A := List.rdropWhile_prefix jsWS A
  have hdrop : (List.rdropWhile jsWS A).dropWhile jsWS = List.rdropWhile jsWS A := by
    rw [List.dropWhile_eq_self_iff]
    intro hl
    have hAne : 0 < A.length := lt_of_lt_of_le hl hpre.length_le
    have hget : (List.rdropWhile jsWS A).get ⟨0, hl⟩ = A.get ⟨0, hAne⟩ := by
      have := hpre.getElem hl
      simpa [List.get_eq_getElem] using this
    rw [hget]
    exact List.dropWhile_eq_self_iff.mp hdA hAne
  rw [hdrop]
  rw [List.rdropWhile_idempotent]

theorem textsOkList_fst_ite {c : Prop} [Decidable c] {a b : List RNode × Nat}
    (ha : textsOkList a.1 = true) (hb : textsOkList b.1 = true) :
    textsOkList ((if c then a else b).1) = true := by
  split <;> assumption

theorem textsOkList_ite {c : Prop} [Decidable c] {a b : List RNode}
    (ha : textsOkList a = true) (hb : textsOkList b = true) :
    textsOkList (if c then a else b) = true := by
  split <;> assumption

theorem textsOk_of_spacing : ∀ {x : RNode}, isSpacingNode x = true → textsOk x = true := by
  intro x h
  cases x
  case paragraph id cs pd =>
    cases cs with
    | nil => simp [isSpacingNode] at h
    | cons c cs2 =>
      cases cs2 with
      | cons d ds => cases c <;> simp [isSpacingNode] at h
      | nil =>
        cases c
        case text td =>
          have ht : td.text = " " := by simpa [isSpacingNode] using h
          show (textOkStr td.text && true) = true
          rw [ht]
          decide
        all_goals simp [isSpacingNode] at h
  all_goals simp [isSpacingNode] at h

set_option maxHeartbeats 3200000 in
/-- For good inputs, every function of the converter emits only Text nodes
whose content is non-blank after trimming or one of the two markers. -/
theorem textsOk_master (g : IdGen) : ∀ fuel : Nat,
    (∀ ps cs k, goodInputList cs = true →
      textsOkList (ptiChildren g fuel ps cs k).1 = true) ∧
    (∀ e k, goodInput e = true →
      textsOkList (processTextAndInlineElements g fuel e k).1 = true) ∧
    (∀ e k, goodInput e = true →
      textsOkList (handleBlockElement g fuel e k).1 = true) ∧
    (∀ cs k, goodInputList cs = true →
      textsOkList (divChildrenLoop g fuel cs k).1 = true) ∧
    (∀ cells hdr k,
      (∀ c ∈ cells, goodInput c = true ∧
        (tagLower c = "th" || tagLower c = "td") = true) →
      textsOkList (tableCellsLoop g fuel cells hdr k).1 = true) ∧
    (∀ rows acc k, (∀ rp ∈ rows, goodInput rp.1 = true) →
      textsOkList acc.1 = true →
      textsOkList (tableLoop g fuel rows acc k).1.1 = true) ∧
    (∀ e k, goodInput e = true → textsOk (handleTable g fuel e k).1 = true) ∧
    (∀ e k, goodInput e = true →
      textsOkList (convertNodeToRicos g fuel e k).1 = true) ∧
    (∀ cs ph acc k, goodInputList cs = true → textsOkList acc = true →
      textsOkList (convertLoop g fuel cs ph acc k).1 = true) := by
  intro fuel
  induction fuel with
  | zero =>
    exact ⟨fun _ _ _ _ => rfl, fun _ _ _ => rfl, fun _ _ _ => rfl, fun _ _ _ => rfl,
      fun _ _ _ _ => rfl, fun _ acc _ _ h => h, fun _ _ _ => rfl, fun _ _ _ => rfl,
      fun _ _ acc _ _ h => h⟩
  | succ n ih =>
    obtain ⟨ihPC, ihPTI, ihHBE, ihDL, ihTCL, ihTL, ihHT, ihCNR, ihCL⟩ := ih
    have hPC : ∀ ps cs k, goodInputList cs = true →
        textsOkList (ptiChildren g (n + 1) ps cs k).1 = true := by
      intro ps cs k hg
      match cs with
      | [] => rfl
      | c :: rest =>
        obtain ⟨hc, hrest⟩ := goodInputList_cons hg
        cases c with
        | text s =>
          rw [ptiChildren.eq_3]
          split
          · rename_i hcond
            rw [Bool.not_eq_true', decide_eq_false_iff_not] at hcond
            exact textsOkList_cons (textOkStr_of_nonblank hcond) (ihPC _ _ _ hrest)
          · exact ihPC _ _ _ hrest
        | elem t attrs ccs =>
          rw [ptiChildren.eq_4]
          split
          · rename_i hcond
            rw [Bool.or_eq_true, decide_eq_true_eq, decide_eq_true_eq] at hcond
            have hf : flattenTags.contains (lowerStr t) = true := by
              rcases hcond with h | h <;>
                (rw [show tagLower (HNode.elem t attrs ccs) = lowerStr t from rfl] at h;
                 rw [h]) <;> decide
            exact textsOkList_cons (textOkStr_of_nonblank (goodInput_flatten hc hf))
              (ihPC _ _ _ hrest)
          · split
            · rename_i hcond hcond2
              rw [Bool.or_eq_true, decide_eq_true_eq, decide_eq_true_eq] at hcond2
              have hf : flattenTags.contains (lowerStr t) = true := by
                rcases hcond2 with h | h <;>
                  (rw [show tagLower (HNode.elem t attrs ccs) = lowerStr t from rfl] at h;
                   rw [h]) <;> decide
              exact textsOkList_cons (textOkStr_of_nonblank (goodInput_flatten hc hf))
                (ihPC _ _ _ hrest)
            · split
              · rename_i h1 h2 hcond
                have hf : flattenTags.contains (lowerStr t) = true := by
                  rw [show tagLower (HNode.elem t attrs ccs) = lowerStr t from rfl] at hcond
                  rw [hcond]
                  decide
                exact textsOkList_cons (textOkStr_of_nonblank (goodInput_flatten hc hf))
                  (ihPC _ _ _ hrest)
              · split
                · rename_i h1 h2 h3 hcond
                  have hf : flattenTags.contains (lowerStr t) = true := by
                    rw [show tagLower (HNode.elem t attrs ccs) = lowerStr t from rfl] at hcond
                    rw [hcond]
                    decide
                  exact textsOkList_cons
                    (textOkStr_of_nonblank (goodInput_flatten hc hf)) (ihPC _ _ _ hrest)
                · split
                  · exact textsOkList_append (ihPTI _ _ hc) (ihPC _ _ _ hrest)
                  · split
                    · exact textsOkList_cons (by decide) (ihPC _ _ _ hrest)
                    · split
                      · exact textsOkList_cons rfl (ihPC _ _ _ hrest)
                      · split
                        · exact textsOkList_append (ihHBE _ _ hc) (ihPC _ _ _ hrest)
                        · exact textsOkList_append (ihPTI _ _ hc) (ihPC _ _ _ hrest)
    have hPTI : ∀ e k, goodInput e = true →
        textsOkList (processTextAndInlineElements g (n + 1) e k).1 = true := by
      intro e k he
      rw [processTextAndInlineElements.eq_2]
      exact ihPC _ _ _ (goodInput_children he)
    have hHBE : ∀ e k, goodInput e = true →
        textsOkList (handleBlockElement g (n + 1) e k).1 = true := by
      intro e k he
      rw [handleBlockElement.eq_2]
      by_cases h1 : tagLower e = "p"
      · rw [if_pos h1]
        exact textsOkList_cons (ihPTI _ _ he) rfl
      rw [if_neg h1]
      by_cases h2 : headingTags.contains (tagLower e) = true
      · rw [if_pos h2]
        exact textsOkList_fst_ite
          (textsOkList_append
            (textsOkList_fst_ite (textsOkList_cons (textsOk_csp _ _) rfl) rfl)
            (textsOkList_cons (ihPTI _ _ he)
              (textsOkList_cons (textsOk_csp _ _)
                (textsOkList_cons (textsOk_csp _ _) rfl))))
          (textsOkList_append
            (textsOkList_fst_ite (textsOkList_cons (textsOk_csp _ _) rfl) rfl)
            (textsOkList_cons (ihPTI _ _ he) (textsOkList_cons (textsOk_csp _ _) rfl)))
      rw [if_neg h2]
      by_cases h3 : tagLower e = "ul"
      · rw [if_pos h3]
        exact textsOkList_cons (ihCNR _ _ he) (textsOkList_cons (textsOk_csp _ _) rfl)
      rw [if_neg h3]
      by_cases h4 : tagLower e = "ol"
      · rw [if_pos h4]
        exact textsOkList_cons (ihCNR _ _ he) (textsOkList_cons (textsOk_csp _ _) rfl)
      rw [if_neg h4]
      by_cases h5 : tagLower e = "li"
      · rw [if_pos h5]
        exact textsOkList_cons (ihPTI _ _ he) rfl
      rw [if_neg h5]
      by_cases h6 : tagLower e = "blockquote"
      · rw [if_pos h6]
        exact textsOkList_cons (ihPTI _ _ he) (textsOkList_cons (textsOk_csp _ _) rfl)
      rw [if_neg h6]
      by_cases h7 : tagLower e = "pre" ∨ tagLower e = "code"
      · rw [if_pos h7]
        cases e with
        | text s =>
          rcases h7 with h | h <;>
            (rw [show tagLower (HNode.text s) = "" from rfl] at h;
             exact absurd h (by decide))
        | elem t attrs ccs =>
          have hf : flattenTags.contains (lowerStr t) = true := by
            rcases h7 with h | h <;>
              (rw [show tagLower (HNode.elem t attrs ccs) = lowerStr t from rfl] at h;
               rw [h]) <;> decide
          exact textsOkList_cons
            (textsOkList_cons (textOkStr_of_nonblank (goodInput_flatten he hf)) rfl)
            (textsOkList_cons (textsOk_csp _ _) rfl)
      rw [if_neg h7]
      by_cases h8 : tagLower e = "div"
      · rw [if_pos h8]
        exact textsOkList_append
          (textsOkList_append
            (textsOkList_fst_ite
              (textsOkList_cons (textsOk_csp _ _)
                (textsOkList_cons (textsOk_csp _ _) rfl)) rfl)
            (textsOkList_fst_ite (ihDL _ _ (goodInput_children he))
              (textsOkList_cons (ihPTI _ _ he) rfl)))
          (textsOkList_fst_ite
            (textsOkList_cons (textsOk_csp _ _)
              (textsOkList_cons (textsOk_csp _ _) rfl)) rfl)
      rw [if_neg h8]
      exact textsOkList_cons (ihPTI _ _ he) rfl
    have hDL : ∀ cs k, goodInputList cs = true →
        textsOkList (divChildrenLoop g (n + 1) cs k).1 = true := by
      intro cs k hg
      match cs with
      | [] => rfl
      | c :: rest =>
        obtain ⟨hc, hrest⟩ := goodInputList_cons hg
        cases c with
        | elem t attrs ccs =>
          rw [divChildrenLoop.eq_3]
          exact textsOkList_append (ihCNR _ _ hc) (ihDL _ _ hrest)
        | text s =>
          rw [divChildrenLoop.eq_4]
          split
          · rename_i hcond
            rw [Bool.not_eq_true', decide_eq_false_iff_not] at hcond
            refine textsOkList_cons ?_ (ihDL _ _ hrest)
            show (textOkStr (jsTrim s) && true) = true
            rw [Bool.and_eq_true]
            refine ⟨textOkStr_of_nonblank ?_, rfl⟩
            rw [jsTrim_idem]
            exact hcond
          · exact ihDL _ _ hrest
    have hTCL : ∀ cells hdr k,
        (∀ c ∈ cells, goodInput c = true ∧
          (tagLower c = "th" || tagLower c = "td") = true) →
        textsOkList (tableCellsLoop g (n + 1) cells hdr k).1 = true := by
      intro cells hdr k hcells
      match cells with
      | [] => rfl
      | cell :: rest =>
        obtain ⟨hcell, htag⟩ := hcells cell (List.mem_cons_self cell rest)
        have hrest := fun c hc => hcells c (List.mem_cons_of_mem _ hc)
        rw [tableCellsLoop.eq_3]
        have hfb : textOkStr (textContent cell) = true := by
          cases cell with
          | text s =>
            rw [Bool.or_eq_true, decide_eq_true_eq, decide_eq_true_eq] at htag
            rcases htag with h | h <;>
              (rw [show tagLower (HNode.text s) = "" from rfl] at h;
               exact absurd h (by decide))
          | elem t attrs ccs =>
            rw [Bool.or_eq_true, decide_eq_true_eq, decide_eq_true_eq] at htag
            have hf : flattenTags.contains (lowerStr t) = true := by
              rcases htag with h | h <;>
                (rw [show tagLower (HNode.elem t attrs ccs) = lowerStr t from rfl] at h;
                 rw [h]) <;> decide
            exact textOkStr_of_nonblank (goodInput_flatten hcell hf)
        exact textsOkList_cons
          (textsOkList_cons
            (textsOkList_ite (textsOkList_cons hfb rfl) (ihPTI _ _ hcell)) rfl)
          (ihTCL _ _ _ hrest)
    have hTL : ∀ rows acc k, (∀ rp ∈ rows, goodInput rp.1 = true) →
        textsOkList acc.1 = true →
        textsOkList (tableLoop g (n + 1) rows acc k).1.1 = true := by
      intro rows acc k hrows hacc
      match rows with
      | [] => exact hacc
      | rp :: rest =>
        have hrp := hrows rp (List.mem_cons_self rp rest)
        have hrest := fun x hx => hrows x (List.mem_cons_of_mem _ hx)
        rw [tableLoop.eq_3]
        split
        · exact ihTL _ _ _ hrest hacc
        · refine ihTL _ _ _ hrest ?_
          refine textsOkList_append hacc (textsOkList_cons ?_ rfl)
          show textsOkList _ = true
          refine ihTCL _ _ _ ?_
          intro c hcmem
          obtain ⟨hg, _, hp⟩ :=
            mem_queryAll_good (fun tg => tg = "th" || tg = "td") rp.1 c hcmem hrp
          exact ⟨hg, hp⟩
    have hHT : ∀ e k, goodInput e = true →
        textsOk (handleTable g (n + 1) e k).1 = true := by
      intro e k he
      rw [handleTable.eq_2]
      split
      · exact textsOk_of_spacing (isSpacing_csp _ _)
      · show textsOkList _ = true
        refine ihTL _ _ _ ?_ rfl
        intro rp hrp
        exact (mem_queryAllPar_good (fun tg => tg = "tr") e rp hrp he).1
    have hCL : ∀ cs ph acc k, goodInputList cs = true → textsOkList acc = true →
        textsOkList (convertLoop g (n + 1) cs ph acc k).1 = true := by
      intro cs ph acc k hg hacc
      match cs with
      | [] => exact hacc
      | c :: rest =>
        obtain ⟨hc, hrest⟩ := goodInputList_cons hg
        cases c with
        | text s =>
          rw [convertLoop.eq_3]
          split
          · rename_i hcond
            rw [Bool.not_eq_true', decide_eq_false_iff_not] at hcond
            exact ihCL _ _ _ _ hrest
              (textsOkList_append hacc
                (textsOkList_cons (textOkStr_of_nonblank hcond) rfl))
          · exact ihCL _ _ _ _ hrest hacc
        | elem t attrs ccs =>
          rw [convertLoop.eq_4]
          by_cases h1 : tagLower (.elem t attrs ccs) = "p"
          · rw [if_pos h1]
            exact ihCL _ _ _ _ hrest (textsOkList_append hacc (ihHBE _ _ hc))
          rw [if_neg h1]
          by_cases h2 : headingTags.contains (tagLower (.elem t attrs ccs)) = true
          · rw [if_pos h2]
            exact ihCL _ _ _ _ hrest
              (textsOkList_append
                (textsOkList_append hacc
                  (textsOkList_fst_ite (textsOkList_cons (textsOk_csp _ _) rfl) rfl))
                (textsOkList_cons (ihPTI _ _ hc)
                  (textsOkList_cons (textsOk_csp _ _) rfl)))
          rw [if_neg h2]
          by_cases h3 : tagLower (.elem t attrs ccs) = "div"
          · rw [if_pos h3]
            exact ihCL _ _ _ _ hrest (textsOkList_append hacc (ihCNR _ _ hc))
          rw [if_neg h3]
          by_cases h4 : tagLower (.elem t attrs ccs) = "table"
          · rw [if_pos h4]
            exact ihCL _ _ _ _ hrest
              (textsOkList_append hacc
                (textsOkList_cons (ihHT _ _ hc)
                  (textsOkList_cons (textsOk_csp _ _) rfl)))
          rw [if_neg h4]
          by_cases h5 : tagLower (.elem t attrs ccs) = "thead" ∨
            tagLower (.elem t attrs ccs) = "tbody" ∨ tagLower (.elem t attrs ccs) = "tfoot"
          · rw [if_pos h5]
            exact ihCL _ _ _ _ hrest (textsOkList_append hacc (ihCNR _ _ hc))
          rw [if_neg h5]
          by_cases h6 : tagLower (.elem t attrs ccs) = "tr"
          · rw [if_pos h6]
            exact ihCL _ _ _ _ hrest (textsOkList_append hacc (ihCNR _ _ hc))
          rw [if_neg h6]
          by_cases h7 : tagLower (.elem t attrs ccs) = "th" ∨
            tagLower (.elem t attrs ccs) = "td"
          · rw [if_pos h7]
            exact ihCL _ _ _ _ hrest (textsOkList_append hacc (ihPTI _ _ hc))
          rw [if_neg h7]
          by_cases h8 : ["strong", "em", "a", "b", "i", "u", "span"].contains
            (tagLower (.elem t attrs ccs)) = true
          · rw [if_pos h8]
            exact ihCL _ _ _ _ hrest (textsOkList_append hacc (ihPTI _ _ hc))
          rw [if_neg h8]
          by_cases h9 : tagLower (.elem t attrs ccs) = "img"
          · rw [if_pos h9]
            exact ihCL _ _ _ _ hrest (textsOkList_append hacc (textsOkList_cons rfl rfl))
          rw [if_neg h9]
          by_cases h10 : tagLower (.elem t attrs ccs) = "ul"
          · rw [if_pos h10]
            exact ihCL _ _ _ _ hrest
              (textsOkList_append hacc (textsOkList_cons (ihCNR _ _ hc) rfl))
          rw [if_neg h10]
          by_cases h11 : tagLower (.elem t attrs ccs) = "ol"
          · rw [if_pos h11]
            exact ihCL _ _ _ _ hrest
              (textsOkList_append hacc (textsOkList_cons (ihCNR _ _ hc) rfl))
          rw [if_neg h11]
          by_cases h12 : tagLower (.elem t attrs ccs) = "li"
          · rw [if_pos h12]
            exact ihCL _ _ _ _ hrest
              (textsOkList_append hacc (textsOkList_cons (ihPTI _ _ hc) rfl))
          rw [if_neg h12]
          by_cases h13 : tagLower (.elem t attrs ccs) = "blockquote"
          · rw [if_pos h13]
            exact ihCL _ _ _ _ hrest
              (textsOkList_append hacc (textsOkList_cons (ihPTI _ _ hc) rfl))
          rw [if_neg h13]
          by_cases h14 : tagLower (.elem t attrs ccs) = "pre" ∨
            tagLower (.elem t attrs ccs) = "code"
          · rw [if_pos h14]
            have hf : flattenTags.contains (lowerStr t) = true := by
              rcases h14 with h | h <;>
                (rw [show tagLower (HNode.elem t attrs ccs) = lowerStr t from rfl] at h;
                 rw [h]) <;> decide
            exact ihCL _ _ _ _ hrest
              (textsOkList_append hacc
                (textsOkList_cons
                  (textsOkList_cons
                    (textOkStr_of_nonblank (goodInput_flatten hc hf)) rfl) rfl))
          rw [if_neg h14]
          by_cases h15 : tagLower (.elem t attrs ccs) = "hr"
          · rw [if_pos h15]
            exact ihCL _ _ _ _ hrest (textsOkList_append hacc (textsOkList_cons rfl rfl))
          rw [if_neg h15]
          by_cases h16 : tagLower (.elem t attrs ccs) = "br"
          · rw [if_pos h16]
            exact ihCL _ _ _ _ hrest
              (textsOkList_append hacc (textsOkList_cons (textsOk_csp _ _) rfl))
          rw [if_neg h16]
          exact ihCL _ _ _ _ hrest (textsOkList_append hacc (ihHBE _ _ hc))
    have hCNR : ∀ e k, goodInput e = true →
        textsOkList (convertNodeToRicos g (n + 1) e k).1 = true := by
      intro e k he
      rw [convertNodeToRicos.eq_2]
      refine textsOkList_append (ihCL _ _ [] _ (goodInput_children he) rfl) ?_
      exact forall_textsOkList
        (fun x hx => textsOk_of_spacing ((sectionTail_spec g _ _).2 x hx))
    exact ⟨hPC, hPTI, hHBE, hDL, hTCL, hTL, hHT, hCNR, hCL⟩

theorem enhance_textsOk (g : IdGen) :
    ∀ (l : List RNode) (prev : Option String) (first : Bool) (k : Nat),
      textsOkList l = true → textsOkList (enhanceLoop g prev first l k).1 = true := by
  intro l
  induction l with
  | nil => exact fun _ _ _ _ => rfl
  | cons n rest ih =>
    intro prev first k hl
    rw [textsOkList, Bool.and_eq_true] at hl
    obtain ⟨hn, hrest⟩ := hl
    rw [enhanceLoop.eq_2]
    split
    · exact ih _ _ _ hrest
    · split
      · refine textsOkList_append
          (textsOkList_fst_ite (textsOkList_cons (textsOk_csp _ _) rfl) rfl)
          (textsOkList_cons hn (textsOkList_append ?_ (ih _ _ _ hrest)))
        cases rest with
        | nil => exact textsOkList_cons (textsOk_csp _ _) rfl
        | cons y ys =>
          exact textsOkList_fst_ite rfl (textsOkList_cons (textsOk_csp _ _) rfl)
      · split
        · exact textsOkList_cons hn (ih _ _ _ hrest)
        · exact textsOkList_cons hn (ih _ _ _ hrest)

theorem trim_textsOk {l : List RNode} (h : textsOkList l = true) :
    textsOkList (trimSpacing l) = true := by
  refine forall_textsOkList ?_
  intro x hx
  refine textsOkList_forall h x ?_
  unfold trimSpacing at hx
  rw [List.mem_reverse] at hx
  have hx2 := (List.dropWhile_sublist (l := (l.dropWhile isSpacingNode).reverse)
    (p := isSpacingNode)).mem hx
  rw [List.mem_reverse] at hx2
  exact (List.dropWhile_sublist (p := isSpacingNode)).mem hx2

/-- Claim C7 fails on the code as stated: `<p><b></b></p>` produces a Text
node whose content is the empty string — blank after trimming and not one
of the two markers. -/
theorem claim_C7_counterexample :
    textsOkList (htmlToRicos gA
      (.elem "body" [] [.elem "p" [] [.elem "b" [] []]])).nodes = false ∧
    (htmlToRicos gA (.elem "body" [] [.elem "p" [] [.elem "b" [] []]])).nodes =
      [.paragraph "i" [.text { text := "", decorations := some [.bold 700] }] none] := by
  constructor <;> rfl

/-- Claim C7, amended: for every input in which each element the converter
flattens verbatim (`strong`, `b`, `em`, `i`, `u`, `a`, `pre`, `code`,
`th`, `td`) has non-blank text content, every Text node in the returned
document has content that is non-empty after trimming, except the two
deliberate markers: exactly one space (spacing marker) or exactly one
newline (line-break marker). -/
theorem claim_C7 (g : IdGen) (body : HNode) (h : goodInput body = true) :
    textsOkList (htmlToRicos g body).nodes = true := by
  have hmain : textsOkList (convertNodeToRicos g (fuelFor body) body 0).1 = true :=
    (textsOk_master g (fuelFor body)).2.2.2.2.2.2.2.1 body 0 h
  exact trim_textsOk (enhance_textsOk g _ none true _ hmain)

theorem claim_C7_witness :
    (goodInput (.elem "body" []
      [.elem "p" [] [.elem "b" [] [.text "bold"], .text " tail"]]) = true) ∧
    textsOkList (htmlToRicos gA (.elem "body" []
      [.elem "p" [] [.elem "b" [] [.text "bold"], .text " tail"]])).nodes = true :=
  ⟨by decide,
   claim_C7 gA (.elem "body" [] [.elem "p" [] [.elem "b" [] [.text "bold"], .text " tail"]])
     (by decide)⟩

/-! ## Claim C8: determinism up to identifiers

Two invocations draw different random identifiers (`Math.random`), so the
returned documents are not literally identical; they are identical after
erasing every node identifier. -/

-- Erase all node identifiers (Text nodes carry none to begin with).
mutual
def eraseIds : RNode → RNode
  | .text td => .text td
  | .paragraph _ cs pd => .paragraph "" (eraseIdsList cs) pd
  | .heading _ cs hd => .heading "" (eraseIdsList cs) hd
  | .bulletedList _ cs => .bulletedList "" (eraseIdsList cs)
  | .orderedList _ cs => .orderedList "" (eraseIdsList cs)
  | .listItem _ cs => .listItem "" (eraseIdsList cs)
  | .blockquote _ cs => .blockquote "" (eraseIdsList cs)
  | .codeBlock _ cs => .codeBlock "" (eraseIdsList cs)
  | .table _ cs td => .table "" (eraseIdsList cs) td
  | .tableRow _ cs => .tableRow "" (eraseIdsList cs)
  | .tableCell _ cs cd => .tableCell "" (eraseIdsList cs) cd
  | .image _ d => .image "" d
  | .divider _ => .divider ""

def eraseIdsList : List RNode → List RNode
  | [] => []
  | c :: cs => eraseIds c :: eraseIdsList cs
end

theorem erase_append : ∀ {a b : List RNode},
    eraseIdsList (a ++ b) = eraseIdsList a ++ eraseIdsList b
  | [], _ => rfl
  | x :: r, b => by
    rw [List.cons_append, eraseIdsList, eraseIdsList, List.cons_append]
    rw [erase_append]

theorem erase_isEmpty_eq : ∀ {l1 l2 : List RNode},
    eraseIdsList l1 = eraseIdsList l2 → l1.isEmpty = l2.isEmpty := by
  intro l1 l2 h
  cases l1 <;> cases l2 <;> first | rfl | (rw [eraseIdsList, eraseIdsList] at h; cases h)

theorem isSpacing_erase : ∀ x : RNode, isSpacingNode (eraseIds x) = isSpacingNode x := by
  intro x
  cases x
  case paragraph id cs pd =>
    cases cs with
    | nil => rfl
    | cons c cs2 =>
      cases cs2 with
      | nil => cases c <;> rfl
      | cons d ds => cases c <;> rfl
  all_goals rfl

theorem typeStr_erase : ∀ x : RNode, (eraseIds x).typeStr = x.typeStr := by
  intro x
  cases x <;> rfl

theorem erase_cons_congr {x y : RNode} {l1 l2 : List RNode}
    (hx : eraseIds x = eraseIds y) (hl : eraseIdsList l1 = eraseIdsList l2) :
    eraseIdsList (x :: l1) = eraseIdsList (y :: l2) := by
  rw [eraseIdsList, eraseIdsList, hx, hl]

theorem erase_append_congr {a b c d : List RNode}
    (h1 : eraseIdsList a = eraseIdsList c) (h2 : eraseIdsList b = eraseIdsList d) :
    eraseIdsList (a ++ b) = eraseIdsList (c ++ d) := by
  rw [erase_append, erase_append, h1, h2]

theorem erase_fst_ite_congr {c : Prop} [Decidable c] {a b a2 b2 : List RNode × Nat}
    (ha : eraseIdsList a.1 = eraseIdsList a2.1)
    (hb : eraseIdsList b.1 = eraseIdsList b2.1) :
    eraseIdsList ((if c then a else b).1) = eraseIdsList ((if c then a2 else b2).1) := by
  split <;> assumption

theorem erase_ite_congr {c : Prop} [Decidable c] {a b a2 b2 : List RNode}
    (ha : eraseIdsList a = eraseIdsList a2) (hb : eraseIdsList b = eraseIdsList b2) :
    eraseIdsList (if c then a else b) = eraseIdsList (if c then a2 else b2) := by
  split <;> assumption

theorem erase_paragraph_congr {i1 i2 : String} {a b : List RNode} {pd : Option PData}
    (h : eraseIdsList a = eraseIdsList b) :
    eraseIds (.paragraph i1 a pd) = eraseIds (.paragraph i2 b pd) := by
  rw [eraseIds, eraseIds, h]

theorem erase_heading_congr {i1 i2 : String} {a b : List RNode} {hd : HData}
    (h : eraseIdsList a = eraseIdsList b) :
    eraseIds (.heading i1 a hd) = eraseIds (.heading i2 b hd) := by
  rw [eraseIds, eraseIds, h]

theorem erase_bulleted_congr {i1 i2 : String} {a b : List RNode}
    (h : eraseIdsList a = eraseIdsList b) :
    eraseIds (.bulletedList i1 a) = eraseIds (.bulletedList i2 b) := by
  rw [eraseIds, eraseIds, h]

theorem erase_ordered_congr {i1 i2 : String} {a b : List RNode}
    (h : eraseIdsList a = eraseIdsList b) :
    eraseIds (.orderedList i1 a) = eraseIds (.orderedList i2 b) := by
  rw [eraseIds, eraseIds, h]

theorem erase_listItem_congr {i1 i2 : String} {a b : List RNode}
    (h : eraseIdsList a = eraseIdsList b) :
    eraseIds (.listItem i1 a) = eraseIds (.listItem i2 b) := by
  rw [eraseIds, eraseIds, h]

theorem erase_blockquote_congr {i1 i2 : String} {a b : List RNode}
    (h : eraseIdsList a = eraseIdsList b) :
    eraseIds (.blockquote i1 a) = eraseIds (.blockquote i2 b) := by
  rw [eraseIds, eraseIds, h]

theorem erase_tableRow_congr {i1 i2 : String} {a b : List RNode}
    (h : eraseIdsList a = eraseIdsList b) :
    eraseIds (.tableRow i1 a) = eraseIds (.tableRow i2 b) := by
  rw [eraseIds, eraseIds, h]

theorem erase_tableCell_congr {i1 i2 : String} {a b : List RNode}
    {cd : Option (Option Int)} (h : eraseIdsList a = eraseIdsList b) :
    eraseIds (.tableCell i1 a cd) = eraseIds (.tableCell i2 b cd) := by
  rw [eraseIds, eraseIds, h]

theorem erase_table_congr {i1 i2 : String} {a b : List RNode} {td1 td2 : TableData}
    (h : eraseIdsList a = eraseIdsList b) (htd : td1 = td2) :
    eraseIds (.table i1 a td1) = eraseIds (.table i2 b td2) := by
  rw [eraseIds, eraseIds, h, htd]

theorem erase_dropWhile : ∀ l : List RNode,
    eraseIdsList (l.dropWhile isSpacingNode)
      = (eraseIdsList l).dropWhile isSpacingNode := by
  intro l
  induction l with
  | nil => rfl
  | cons x r ih =>
    rw [List.dropWhile_cons, eraseIdsList, List.dropWhile_cons, isSpacing_erase]
    cases hx : isSpacingNode x with
    | true => simp only [if_true, ih]
    | false => simp only [Bool.false_eq_true, if_false, eraseIdsList]

theorem erase_reverse : ∀ l : List RNode,
    eraseIdsList l.reverse = (eraseIdsList l).reverse := by
  intro l
  induction l with
  | nil => rfl
  | cons x r ih =>
    rw [List.reverse_cons, erase_append, ih, eraseIdsList, eraseIdsList, eraseIdsList,
      List.reverse_cons]

theorem trim_erase_comm (l : List RNode) :
    eraseIdsList (trimSpacing l) = trimSpacing (eraseIdsList l) := by
  unfold trimSpacing
  rw [erase_reverse, erase_dropWhile, erase_reverse, erase_dropWhile]

theorem erase_sectionTail (g1 g2 : IdGen) : ∀ (cs : List HNode) (k1 k2 : Nat),
    eraseIdsList (sectionTail g1 cs k1).1 = eraseIdsList (sectionTail g2 cs k2).1 := by
  intro cs
  induction cs with
  | nil => intro k1 k2; rfl
  | cons c rest ih =>
    intro k1 k2
    rw [sectionTail.eq_2, sectionTail.eq_2]
    split
    · exact erase_cons_congr rfl (erase_cons_congr rfl (ih _ _))
    · exact ih _ _

set_option maxHeartbeats 6400000 in
/-- The converter's output does not depend on the id stream or the counter,
up to erasing the node identifiers. -/
theorem erase_master (g1 g2 : IdGen) : ∀ fuel : Nat,
    (∀ ps cs k1 k2, eraseIdsList (ptiChildren g1 fuel ps cs k1).1
        = eraseIdsList (ptiChildren g2 fuel ps cs k2).1) ∧
    (∀ e k1 k2, eraseIdsList (processTextAndInlineElements g1 fuel e k1).1
        = eraseIdsList (processTextAndInlineElements g2 fuel e k2).1) ∧
    (∀ e k1 k2, eraseIdsList (handleBlockElement g1 fuel e k1).1
        = eraseIdsList (handleBlockElement g2 fuel e k2).1) ∧
    (∀ cs k1 k2, eraseIdsList (divChildrenLoop g1 fuel cs k1).1
        = eraseIdsList (divChildrenLoop g2 fuel cs k2).1) ∧
    (∀ cells hdr k1 k2, eraseIdsList (tableCellsLoop g1 fuel cells hdr k1).1
        = eraseIdsList (tableCellsLoop g2 fuel cells hdr k2).1) ∧
    (∀ rows acc1 acc2 k1 k2,
      eraseIdsList acc1.1 = eraseIdsList acc2.1 → acc1.2 = acc2.2 →
      eraseIdsList (tableLoop g1 fuel rows acc1 k1).1.1
          = eraseIdsList (tableLoop g2 fuel rows acc2 k2).1.1 ∧
      (tableLoop g1 fuel rows acc1 k1).1.2 = (tableLoop g2 fuel rows acc2 k2).1.2) ∧
    (∀ e k1 k2, eraseIds (handleTable g1 fuel e k1).1
        = eraseIds (handleTable g2 fuel e k2).1) ∧
    (∀ e k1 k2, eraseIdsList (convertNodeToRicos g1 fuel e k1).1
        = eraseIdsList (convertNodeToRicos g2 fuel e k2).1) ∧
    (∀ cs ph acc1 acc2 k1 k2, eraseIdsList acc1 = eraseIdsList acc2 →
      eraseIdsList (convertLoop g1 fuel cs ph acc1 k1).1
          = eraseIdsList (convertLoop g2 fuel cs ph acc2 k2).1) := by
  intro fuel
  induction fuel with
  | zero =>
    exact ⟨fun _ _ _ _ => rfl, fun _ _ _ => rfl, fun _ _ _ => rfl, fun _ _ _ => rfl,
      fun _ _ _ _ => rfl, fun _ _ _ _ _ h1 h2 => ⟨h1, h2⟩, fun _ _ _ => rfl,
      fun _ _ _ => rfl, fun _ _ _ _ _ _ h => h⟩
  | succ n ih =>
    obtain ⟨ihPC, ihPTI, ihHBE, ihDL, ihTCL, ihTL, ihHT, ihCNR, ihCL⟩ := ih
    have hPC : ∀ ps cs k1 k2, eraseIdsList (ptiChildren g1 (n + 1) ps cs k1).1
        = eraseIdsList (ptiChildren g2 (n + 1) ps cs k2).1 := by
      intro ps cs k1 k2
      match cs with
      | [] => rfl
      | c :: rest =>
        cases c with
        | text s =>
          rw [ptiChildren.eq_3, ptiChildren.eq_3]
          split
          · exact erase_cons_congr rfl (ihPC _ _ _ _)
          · exact ihPC _ _ _ _
        | elem t attrs ccs =>
          rw [ptiChildren.eq_4, ptiChildren.eq_4]
          by_cases h1 : (tagLower (HNode.elem t attrs ccs) = "strong"
              || tagLower (HNode.elem t attrs ccs) = "b") = true
          · rw [if_pos h1, if_pos h1]
            exact erase_cons_congr rfl (ihPC _ _ _ _)
          rw [if_neg h1, if_neg h1]
          by_cases h2 : (tagLower (HNode.elem t attrs ccs) = "em"
              || tagLower (HNode.elem t attrs ccs) = "i") = true
          · rw [if_pos h2, if_pos h2]
            exact erase_cons_congr rfl (ihPC _ _ _ _)
          rw [if_neg h2, if_neg h2]
          by_cases h3 : tagLower (HNode.elem t attrs ccs) = "u"
          · rw [if_pos h3, if_pos h3]
            exact erase_cons_congr rfl (ihPC _ _ _ _)
          rw [if_neg h3, if_neg h3]
          by_cases h4 : tagLower (HNode.elem t attrs ccs) = "a"
          · rw [if_pos h4, if_pos h4]
            exact erase_cons_congr rfl (ihPC _ _ _ _)
          rw [if_neg h4, if_neg h4]
          by_cases h5 : tagLower (HNode.elem t attrs ccs) = "span"
          · rw [if_pos h5, if_pos h5]
            exact erase_append_congr (ihPTI _ _ _) (ihPC _ _ _ _)
          rw [if_neg h5, if_neg h5]
          by_cases h6 : tagLower (HNode.elem t attrs ccs) = "br"
          · rw [if_pos h6, if_pos h6]
            exact erase_cons_congr rfl (ihPC _ _ _ _)
          rw [if_neg h6, if_neg h6]
          by_cases h7 : tagLower (HNode.elem t attrs ccs) = "img"
          · rw [if_pos h7, if_pos h7]
            exact erase_cons_congr rfl (ihPC _ _ _ _)
          rw [if_neg h7, if_neg h7]
          by_cases h8 : ptiBlockTags.contains (tagLower (HNode.elem t attrs ccs)) = true
          · rw [if_pos h8, if_pos h8]
            exact erase_append_congr (ihHBE _ _ _) (ihPC _ _ _ _)
          rw [if_neg h8, if_neg h8]
          exact erase_append_congr (ihPTI _ _ _) (ihPC _ _ _ _)
    have hPTI : ∀ e k1 k2, eraseIdsList (processTextAndInlineElements g1 (n + 1) e k1).1
        = eraseIdsList (processTextAndInlineElements g2 (n + 1) e k2).1 := by
      intro e k1 k2
      rw [processTextAndInlineElements.eq_2, processTextAndInlineElements.eq_2]
      exact ihPC _ _ _ _
    have hHBE : ∀ e k1 k2, eraseIdsList (handleBlockElement g1 (n + 1) e k1).1
        = eraseIdsList (handleBlockElement g2 (n + 1) e k2).1 := by
      intro e k1 k2
      rw [handleBlockElement.eq_2, handleBlockElement.eq_2]
      by_cases h1 : tagLower e = "p"
      · rw [if_pos h1, if_pos h1]
        exact erase_cons_congr (erase_paragraph_congr (ihPTI _ _ _)) rfl
      rw [if_neg h1, if_neg h1]
      by_cases h2 : headingTags.contains (tagLower e) = true
      · rw [if_pos h2, if_pos h2]
        exact erase_fst_ite_congr
          (erase_append_congr (erase_fst_ite_congr (erase_cons_congr rfl rfl) rfl)
            (erase_cons_congr (erase_heading_congr (ihPTI _ _ _))
              (erase_cons_congr rfl (erase_cons_congr rfl rfl))))
          (erase_append_congr (erase_fst_ite_congr (erase_cons_congr rfl rfl) rfl)
            (erase_cons_congr (erase_heading_congr (ihPTI _ _ _))
              (erase_cons_congr rfl rfl)))
      rw [if_neg h2, if_neg h2]
      by_cases h3 : tagLower e = "ul"
      · rw [if_pos h3, if_pos h3]
        exact erase_cons_congr (erase_bulleted_congr (ihCNR _ _ _))
          (erase_cons_congr rfl rfl)
      rw [if_neg h3, if_neg h3]
      by_cases h4 : tagLower e = "ol"
      · rw [if_pos h4, if_pos h4]
        exact erase_cons_congr (erase_ordered_congr (ihCNR _ _ _))
          (erase_cons_congr rfl rfl)
      rw [if_neg h4, if_neg h4]
      by_cases h5 : tagLower e = "li"
      · rw [if_pos h5, if_pos h5]
        exact erase_cons_congr (erase_listItem_congr (ihPTI _ _ _)) rfl
      rw [if_neg h5, if_neg h5]
      by_cases h6 : tagLower e = "blockquote"
      · rw [if_pos h6, if_pos h6]
        exact erase_cons_congr (erase_blockquote_congr (ihPTI _ _ _))
          (erase_cons_congr rfl rfl)
      rw [if_neg h6, if_neg h6]
      by_cases h7 : tagLower e = "pre" ∨ tagLower e = "code"
      · rw [if_pos h7, if_pos h7]
        exact erase_cons_congr rfl (erase_cons_congr rfl rfl)
      rw [if_neg h7, if_neg h7]
      by_cases h8 : tagLower e = "div"
      · rw [if_pos h8, if_pos h8]
        exact erase_append_congr
          (erase_append_congr
            (erase_fst_ite_congr (erase_cons_congr rfl (erase_cons_congr rfl rfl)) rfl)
            (erase_fst_ite_congr (ihDL _ _ _)
              (erase_cons_congr (erase_paragraph_congr (ihPTI _ _ _)) rfl)))
          (erase_fst_ite_congr (erase_cons_congr rfl (erase_cons_congr rfl rfl)) rfl)
      rw [if_neg h8, if_neg h8]
      exact erase_cons_congr (erase_paragraph_congr (ihPTI _ _ _)) rfl
    have hDL : ∀ cs k1 k2, eraseIdsList (divChildrenLoop g1 (n + 1) cs k1).1
        = eraseIdsList (divChildrenLoop g2 (n + 1) cs k2).1 := by
      intro cs k1 k2
      match cs with
      | [] => rfl
      | c :: rest =>
        cases c with
        | elem t attrs ccs =>
          rw [divChildrenLoop.eq_3, divChildrenLoop.eq_3]
          exact erase_append_congr (ihCNR _ _ _) (ihDL _ _ _)
        | text s =>
          rw [divChildrenLoop.eq_4, divChildrenLoop.eq_4]
          split
          · exact erase_cons_congr (erase_paragraph_congr rfl) (ihDL _ _ _)
          · exact ihDL _ _ _
    have hTCL : ∀ cells hdr k1 k2, eraseIdsList (tableCellsLoop g1 (n + 1) cells hdr k1).1
        = eraseIdsList (tableCellsLoop g2 (n + 1) cells hdr k2).1 := by
      intro cells hdr k1 k2
      match cells with
      | [] => rfl
      | cell :: rest =>
        rw [tableCellsLoop.eq_3, tableCellsLoop.eq_3]
        have hEmpC : (processTextAndInlineElements g1 n cell (k1 + 1)).1.isEmpty
            = (processTextAndInlineElements g2 n cell (k2 + 1)).1.isEmpty :=
          erase_isEmpty_eq (ihPTI _ _ _)
        rw [hEmpC]
        exact erase_cons_congr
          (erase_tableCell_congr
            (erase_cons_congr
              (erase_paragraph_congr (erase_ite_congr rfl (ihPTI _ _ _))) rfl))
          (ihTCL _ _ _ _)
    have hTL : ∀ rows acc1 acc2 k1 k2,
        eraseIdsList acc1.1 = eraseIdsList acc2.1 → acc1.2 = acc2.2 →
        eraseIdsList (tableLoop g1 (n + 1) rows acc1 k1).1.1
            = eraseIdsList (tableLoop g2 (n + 1) rows acc2 k2).1.1 ∧
        (tableLoop g1 (n + 1) rows acc1 k1).1.2
            = (tableLoop g2 (n + 1) rows acc2 k2).1.2 := by
      intro rows acc1 acc2 k1 k2 hacc1 hacc2
      match rows with
      | [] => exact ⟨hacc1, hacc2⟩
      | rp :: rest =>
        rw [tableLoop.eq_3, tableLoop.eq_3]
        split
        · exact ihTL _ _ _ _ _ hacc1 hacc2
        · refine ihTL _ _ _ _ _ ?_ ?_
          · exact erase_append_congr hacc1
              (erase_cons_congr (erase_tableRow_congr (ihTCL _ _ _ _)) rfl)
          · rw [hacc2]
    have hHT : ∀ e k1 k2, eraseIds (handleTable g1 (n + 1) e k1).1
        = eraseIds (handleTable g2 (n + 1) e k2).1 := by
      intro e k1 k2
      rw [handleTable.eq_2, handleTable.eq_2]
      split
      · rfl
      · obtain ⟨hTL1, hTL2⟩ :=
          ihTL (queryAllPar (fun tg => tg = "tr") e) ([], [], 0) ([], [], 0) k1 k2 rfl rfl
        refine erase_table_congr hTL1 ?_
        rw [hTL2]
    have hCL : ∀ cs ph acc1 acc2 k1 k2, eraseIdsList acc1 = eraseIdsList acc2 →
        eraseIdsList (convertLoop g1 (n + 1) cs ph acc1 k1).1
            = eraseIdsList (convertLoop g2 (n + 1) cs ph acc2 k2).1 := by
      intro cs ph acc1 acc2 k1 k2 hacc
      match cs with
      | [] => exact hacc
      | c :: rest =>
        cases c with
        | text s =>
          rw [convertLoop.eq_3, convertLoop.eq_3]
          split
          · exact ihCL _ _ _ _ _ _ (erase_append_congr hacc (erase_cons_congr rfl rfl))
          · exact ihCL _ _ _ _ _ _ hacc
        | elem t attrs ccs =>
          rw [convertLoop.eq_4, convertLoop.eq_4]
          by_cases h1 : tagLower (.elem t attrs ccs) = "p"
          · rw [if_pos h1, if_pos h1]
            exact ihCL _ _ _ _ _ _ (erase_append_congr hacc (ihHBE _ _ _))
          rw [if_neg h1, if_neg h1]
          by_cases h2 : headingTags.contains (tagLower (.elem t attrs ccs)) = true
          · rw [if_pos h2, if_pos h2]
            have hEmp : acc1.isEmpty = acc2.isEmpty := erase_isEmpty_eq hacc
            rw [hEmp]
            exact ihCL _ _ _ _ _ _
              (erase_append_congr
                (erase_append_congr hacc
                  (erase_fst_ite_congr (erase_cons_congr rfl rfl) rfl))
                (erase_cons_congr (erase_heading_congr (ihPTI _ _ _))
                  (erase_cons_congr rfl rfl)))
          rw [if_neg h2, if_neg h2]
          by_cases h3 : tagLower (.elem t attrs ccs) = "div"
          · rw [if_pos h3, if_pos h3]
            exact ihCL _ _ _ _ _ _ (erase_append_congr hacc (ihCNR _ _ _))
          rw [if_neg h3, if_neg h3]
          by_cases h4 : tagLower (.elem t attrs ccs) = "table"
          · rw [if_pos h4, if_pos h4]
            exact ihCL _ _ _ _ _ _
              (erase_append_congr hacc
                (erase_cons_congr (ihHT _ _ _) (erase_cons_congr rfl rfl)))
          rw [if_neg h4, if_neg h4]
          by_cases h5 : tagLower (.elem t attrs ccs) = "thead" ∨
            tagLower (.elem t attrs ccs) = "tbody" ∨ tagLower (.elem t attrs ccs) = "tfoot"
          · rw [if_pos h5, if_pos h5]
            exact ihCL _ _ _ _ _ _ (erase_append_congr hacc (ihCNR _ _ _))
          rw [if_neg h5, if_neg h5]
          by_cases h6 : tagLower (.elem t attrs ccs) = "tr"
          · rw [if_pos h6, if_pos h6]
            exact ihCL _ _ _ _ _ _ (erase_append_congr hacc (ihCNR _ _ _))
          rw [if_neg h6, if_neg h6]
          by_cases h7 : tagLower (.elem t attrs ccs) = "th" ∨
            tagLower (.elem t attrs ccs) = "td"
          · rw [if_pos h7, if_pos h7]
            exact ihCL _ _ _ _ _ _ (erase_append_congr hacc (ihPTI _ _ _))
          rw [if_neg h7, if_neg h7]
          by_cases h8 : ["strong", "em", "a", "b", "i", "u", "span"].contains
            (tagLower (.elem t attrs ccs)) = true
          · rw [if_pos h8, if_pos h8]
            exact ihCL _ _ _ _ _ _ (erase_append_congr hacc (ihPTI _ _ _))
          rw [if_neg h8, if_neg h8]
          by_cases h9 : tagLower (.elem t attrs ccs) = "img"
          · rw [if_pos h9, if_pos h9]
            exact ihCL _ _ _ _ _ _ (erase_append_congr hacc (erase_cons_congr rfl rfl))
          rw [if_neg h9, if_neg h9]
          by_cases h10 : tagLower (.elem t attrs ccs) = "ul"
          · rw [if_pos h10, if_pos h10]
            exact ihCL _ _ _ _ _ _
              (erase_append_congr hacc
                (erase_cons_congr (erase_bulleted_congr (ihCNR _ _ _)) rfl))
          rw [if_neg h10, if_neg h10]
          by_cases h11 : tagLower (.elem t attrs ccs) = "ol"
          · rw [if_pos h11, if_pos h11]
            exact ihCL _ _ _ _ _ _
              (erase_append_congr hacc
                (erase_cons_congr (erase_ordered_congr (ihCNR _ _ _)) rfl))
          rw [if_neg h11, if_neg h11]
          by_cases h12 : tagLower (.elem t attrs ccs) = "li"
          · rw [if_pos h12, if_pos h12]
            exact ihCL _ _ _ _ _ _
              (erase_append_congr hacc
                (erase_cons_congr (erase_listItem_congr (ihPTI _ _ _)) rfl))
          rw [if_neg h12, if_neg h12]
          by_cases h13 : tagLower (.elem t attrs ccs) = "blockquote"
          · rw [if_pos h13, if_pos h13]
            exact ihCL _ _ _ _ _ _
              (erase_append_congr hacc
                (erase_cons_congr (erase_blockquote_congr (ihPTI _ _ _)) rfl))
          rw [if_neg h13, if_neg h13]
          by_cases h14 : tagLower (.elem t attrs ccs) = "pre" ∨
            tagLower (.elem t attrs ccs) = "code"
          · rw [if_pos h14, if_pos h14]
            exact ihCL _ _ _ _ _ _ (erase_append_congr hacc (erase_cons_congr rfl rfl))
          rw [if_neg h14, if_neg h14]
          by_cases h15 : tagLower (.elem t attrs ccs) = "hr"
          · rw [if_pos h15, if_pos h15]
            exact ihCL _ _ _ _ _ _ (erase_append_congr hacc (erase_cons_congr rfl rfl))
          rw [if_neg h15, if_neg h15]
          by_cases h16 : tagLower (.elem t attrs ccs) = "br"
          · rw [if_pos h16, if_pos h16]
            exact ihCL _ _ _ _ _ _ (erase_append_congr hacc (erase_cons_congr rfl rfl))
          rw [if_neg h16, if_neg h16]
          exact ihCL _ _ _ _ _ _ (erase_append_congr hacc (ihHBE _ _ _))
    have hCNR : ∀ e k1 k2, eraseIdsList (convertNodeToRicos g1 (n + 1) e k1).1
        = eraseIdsList (convertNodeToRicos g2 (n + 1) e k2).1 := by
      intro e k1 k2
      rw [convertNodeToRicos.eq_2, convertNodeToRicos.eq_2]
      exact erase_append_congr (ihCL _ _ _ _ _ _ rfl) (erase_sectionTail g1 g2 _ _ _)
    exact ⟨hPC, hPTI, hHBE, hDL, hTCL, hTL, hHT, hCNR, hCL⟩

theorem erase_fst_ite_congr_b {b1 b2 : Bool} (hb : b1 = b2) {a c a2 c2 : List RNode × Nat}
    (ha : eraseIdsList a.1 = eraseIdsList a2.1)
    (hc : eraseIdsList c.1 = eraseIdsList c2.1) :
    eraseIdsList ((if b1 = true then a else c).1)
      = eraseIdsList ((if b2 = true then a2 else c2).1) := by
  subst hb
  exact erase_fst_ite_congr ha hc

set_option maxHeartbeats 1600000 in
theorem enhance_erase (g1 g2 : IdGen) : ∀ (l1 : List RNode), ∀ (l2 : List RNode)
    (prev : Option String) (isFirst : Bool) (k1 k2 : Nat),
    eraseIdsList l1 = eraseIdsList l2 →
    eraseIdsList (enhanceLoop g1 prev isFirst l1 k1).1
      = eraseIdsList (enhanceLoop g2 prev isFirst l2 k2).1 := by
  intro l1
  induction l1 with
  | nil =>
    intro l2 prev isFirst k1 k2 h
    cases l2 with
    | nil => rfl
    | cons y r2 => rw [eraseIdsList, eraseIdsList] at h; cases h
  | cons x r1 ih =>
    intro l2 prev isFirst k1 k2 h
    cases l2 with
    | nil => rw [eraseIdsList, eraseIdsList] at h; cases h
    | cons y r2 =>
      rw [eraseIdsList, eraseIdsList] at h
      injection h with hx hr
      have hsp : isSpacingNode x = isSpacingNode y := by
        rw [← isSpacing_erase x, hx, isSpacing_erase]
      have hty : RNode.typeStr x = RNode.typeStr y := by
        rw [← typeStr_erase x, hx, typeStr_erase]
      simp only [enhanceLoop.eq_2, hsp, hty]
      split
      · exact ih _ _ _ _ _ hr
      · split
        · cases r1 with
          | nil =>
            cases r2 with
            | nil =>
              exact erase_append_congr
                (erase_fst_ite_congr (erase_cons_congr rfl rfl) rfl)
                (erase_cons_congr hx (erase_append_congr (erase_cons_congr rfl rfl)
                  (ih _ _ _ _ _ hr)))
            | cons y2 r2b => rw [eraseIdsList, eraseIdsList] at hr; cases hr
          | cons x2 r1b =>
            cases r2 with
            | nil => rw [eraseIdsList, eraseIdsList] at hr; cases hr
            | cons y2 r2b =>
              have hr2 := hr
              rw [eraseIdsList, eraseIdsList] at hr2
              injection hr2 with hx2 hrb
              have hspn : isSpacingNode x2 = isSpacingNode y2 := by
                rw [← isSpacing_erase x2, hx2, isSpacing_erase]
              exact erase_append_congr
                (erase_fst_ite_congr (erase_cons_congr rfl rfl) rfl)
                (erase_cons_congr hx (erase_append_congr
                  (erase_fst_ite_congr_b hspn rfl (erase_cons_congr rfl rfl))
                  (ih _ _ _ _ _ hr)))
        · split
          · exact erase_cons_congr hx (ih _ _ _ _ _ hr)
          · exact erase_cons_congr hx (ih _ _ _ _ _ hr)

-- First top-level Paragraph identifier of a document, if any.
def firstParagraphId (d : RicosDoc) : Option String :=
  match d.nodes with
  | .paragraph i _ _ :: _ => some i
  | _ => none

def bodyPx : HNode := .elem "body" [] [.elem "p" [] [.text "x"]]

/-- C8, counterexample: two invocations of the entry point on the very same
input, drawing different identifier streams (as Math.random does), return
documents that are not identical: the first paragraph's id differs. -/
theorem claim_C8_counterexample : htmlToRicos gA bodyPx ≠ htmlToRicos gB bodyPx :=
  fun h => absurd (congrArg firstParagraphId h) (by decide)

/-- C8, amended: the conversion entry point is a pure function of the input
tree UP TO node identifiers: for any two identifier streams (and hence any
two invocations), the documents returned on the same input agree after
erasing every generated node id. -/
theorem claim_C8 (g1 g2 : IdGen) (body : HNode) :
    eraseIdsList (htmlToRicos g1 body).nodes
      = eraseIdsList (htmlToRicos g2 body).nodes := by
  simp only [htmlToRicos]
  rw [trim_erase_comm, trim_erase_comm]
  exact congrArg trimSpacing (enhance_erase g1 g2 _ _ none true _ _
    ((erase_master g1 g2 (fuelFor body)).2.2.2.2.2.2.2.1 body 0 0))
